import Mathlib

/-!
# Verification of the AG enforcement-tracker record-linkage pipeline

Shallow embedding of the core pipeline of `ag-enforcement-tracker`:

* `src/extractors/filter.py`      — two-stage enforcement classifier
* `src/extractors/patterns.py`    — settlement-amount selection
* `src/extractors/press_release.py` — record builder and quality score
* `src/normalization/entities.py` — entity resolver
* `src/validation/dedup.py`       — pairwise dedup and multistate clustering

Python strings are modelled over their character lists (the repository's
inputs are ASCII press-release text, so Python's `str.lower`, `str.title`,
`str.strip`, slicing, and `in` are modelled at ASCII granularity).
Compiled regular expressions (`re.Pattern.search` over hand-tuned pattern
batteries) and the third-party similarity scorer `thefuzz.fuzz.
token_sort_ratio` are not code of this repository; each one is modelled as
an explicit function parameter of the embedding, so every theorem below
quantifies over the behaviour of those primitives while keeping all of the
repository's own control flow, arithmetic, thresholds, and data handling
concrete.  `decimal.Decimal` values are modelled as `ℚ`, `datetime.date`
as a day count `ℤ`, and `uuid.uuid4()` / `datetime.utcnow()` draws as
explicit input parameters (they are the nondeterministic inputs of the
Python code).
-/

/-! ## Python string primitives (ASCII fragment) -/

/-- Python `str.lower` on an ASCII character. -/
def pyCharLower (c : Char) : Char :=
  if 'A' ≤ c ∧ c ≤ 'Z' then Char.ofNat (c.toNat + 32) else c

/-- Python `str.upper` on an ASCII character. -/
def pyCharUpper (c : Char) : Char :=
  if 'a' ≤ c ∧ c ≤ 'z' then Char.ofNat (c.toNat - 32) else c

def isAsciiAlpha (c : Char) : Bool :=
  ('a' ≤ c && c ≤ 'z') || ('A' ≤ c && c ≤ 'Z')

def isAsciiUpperChar (c : Char) : Bool := 'A' ≤ c && c ≤ 'Z'

def isAsciiLowerChar (c : Char) : Bool := 'a' ≤ c && c ≤ 'z'

def isAsciiDigit (c : Char) : Bool := '0' ≤ c && c ≤ '9'

/-- Python `str.lower`. -/
def pyLower (s : String) : String := String.mk (s.data.map pyCharLower)

/-- Python `str.upper`. -/
def pyUpper (s : String) : String := String.mk (s.data.map pyCharUpper)

/-- Whitespace characters recognised by Python `str.strip` / `\s` (ASCII). -/
def pyIsSpace (c : Char) : Bool :=
  c = ' ' || c = '\t' || c = '\n' || c = '\r' || c = Char.ofNat 11 || c = Char.ofNat 12

/-- Membership of a character list as a contiguous sublist (`needle in hay`). -/
def containsSubAux (n : List Char) : List Char → Bool
  | [] => n.isEmpty
  | c :: t => List.isPrefixOf n (c :: t) || containsSubAux n t

/-- Python `needle in hay` substring test. -/
def containsSub (needle hay : String) : Bool := containsSubAux needle.data hay.data

/-- First index at which `n` occurs in the remaining list, else `none`. -/
def pyFindAux (n : List Char) : List Char → Nat → Option Nat
  | [], i => if n.isEmpty then some i else none
  | c :: t, i => if List.isPrefixOf n (c :: t) then some i else pyFindAux n t (i + 1)

/-- Python `hay.find(needle)`: first index of the substring, `-1` if absent. -/
def pyFind (hay needle : String) : Int :=
  match pyFindAux needle.data hay.data 0 with
  | some i => (i : Int)
  | none => -1

/-- Python slice `s[:n]`. -/
def pyTake (s : String) (n : Nat) : String := String.mk (s.data.take n)

/-- Python slice `s[a:b]` (for `0 ≤ a ≤ b`). -/
def pySlice (s : String) (a b : Nat) : String :=
  String.mk ((s.data.take b).drop a)

/-- Python `str.strip()` (strip whitespace at both ends). -/
def pyStrip (s : String) : String :=
  String.mk (((s.data.dropWhile pyIsSpace).reverse.dropWhile pyIsSpace).reverse)

/-- Python `str.rstrip(",.")`. -/
def pyRstripPunct (s : String) : String :=
  String.mk ((s.data.reverse.dropWhile (fun c => c = ',' || c = '.')).reverse)

/-- `re.sub(r'\s+', ' ', s)`: collapse whitespace runs to single spaces.
The boolean flag records whether the previous character was whitespace. -/
def collapseWsAux : Bool → List Char → List Char
  | _, [] => []
  | prev, c :: t =>
    if pyIsSpace c then
      if prev then collapseWsAux true t else ' ' :: collapseWsAux true t
    else c :: collapseWsAux false t

def collapseWs (s : String) : String := String.mk (collapseWsAux false s.data)

/-- Python `str.isupper` (ASCII): has a cased character and no lowercase one. -/
def pyIsUpper (s : String) : Bool :=
  s.data.any isAsciiAlpha && s.data.all (fun c => !isAsciiLowerChar c)

/-- Python `str.islower` (ASCII). -/
def pyIsLower (s : String) : Bool :=
  s.data.any isAsciiAlpha && s.data.all (fun c => !isAsciiUpperChar c)

/-- Python `str.title` (ASCII): a letter is uppercased when it follows a
non-letter and lowercased otherwise.  The flag records whether the previous
character was a letter. -/
def pyTitleAux : Bool → List Char → List Char
  | _, [] => []
  | prevAlpha, c :: t =>
    if isAsciiAlpha c then
      (if prevAlpha then pyCharLower c else pyCharUpper c) :: pyTitleAux true t
    else c :: pyTitleAux false t

def pyTitle (s : String) : String := String.mk (pyTitleAux false s.data)

/-! ## `src/extractors/filter.py` — two-stage enforcement classifier

`_HEADLINE_NON_ENFORCEMENT_RE` (a battery of about eighty compiled
regexes searched against the headline) and the four stage-2 patterns
(`_HAS_DOLLAR`, `_HAS_STATUTE`, `_HAS_COURT`, `_HAS_DEFENDANT`) are regex
primitives; they enter the embedding as the boolean-search parameters
`override`, `dollarRe`, `statuteRe`, `courtRe`, `defendantRe`.  The two
keyword sets are plain Python substring membership and are embedded
verbatim. -/

/-- `_ENFORCEMENT_KEYWORDS` from `filter.py`. -/
def enforcementKeywords : List String :=
  ["settlement", "consent decree", "lawsuit", "complaint filed",
   "assurance of discontinuance", "civil penalty", "civil penalties",
   "injunctive relief", "injunction", "violated", "enforcement action",
   "sentenced", "sentencing", "convicted", "conviction", "indictment",
   "indicted", "pleaded guilty", "pled guilty", "plea agreement", "judgment",
   "restitution", "sues", "sued", "files suit", "filed suit",
   "files complaint", "filed complaint", "files action", "filed action",
   "files lawsuit", "filed lawsuit", "legal action", "cease and desist",
   "preliminary injunction", "permanent injunction", "consent order",
   "stipulated order", "held accountable"]

/-- `_NON_ENFORCEMENT_KEYWORDS` from `filter.py`. -/
def nonEnforcementKeywords : List String :=
  ["consumer alert", "consumer tips", "consumer advisory", "advisory",
   "awareness", "recognizes", "congratulates", "testimony", "legislative",
   "amicus brief", "friend of the court", "endorses", "endorsement",
   "supports", "supports rules", "supports legislation", "issues statement",
   "issues guidance", "regional convening", "reminds consumers",
   "warns consumers", "highlights", "releases report", "releases bulletin",
   "releases data", "annual report", "celebrating", "celebrates",
   "appointed", "appointment", "grant announcement", "volunteers",
   "sponsored bill", "signed into law", "opens investigation",
   "investigating officer", "investigating shooting", "awareness month",
   "heritage month", "comment letter", "testimony before", "urges",
   "calls on", "applauds", "commends", "welcomes", "encourages students",
   "high school students", "teen ambassador", "conceal carry",
   "concealed carry", "peace officer", "fallen officer", "gun buyback",
   "open carry", "legal explainer", "legal analysis", "provides update",
   "provides statement", "solicitor general", "free help available",
   "free help for", "plugs free", "one step closer", "animal cruelty",
   "cruelty to animals", "releases footage", "releases video", "body cam",
   "body camera"]

/-- `_keyword_screen` from `filter.py`.  `override` is the search of the
`_HEADLINE_NON_ENFORCEMENT_RE` battery against the headline. -/
def keywordScreen (override : String → Bool) (headline bodyFirst500 : String) : String :=
  let combined := pyLower (headline ++ " " ++ bodyFirst500)
  if override headline then "reject"
  else
    let hasEnforcement := enforcementKeywords.any (fun kw => containsSub kw combined)
    let hasNonEnforcement := nonEnforcementKeywords.any (fun kw => containsSub kw combined)
    if hasEnforcement then "pass"
    else if hasNonEnforcement then "reject"
    else "ambiguous"

/-- `_pattern_validation` from `filter.py` over the four stage-2 regex
primitives. -/
def patternValidation (defendantRe dollarRe statuteRe courtRe : String → Bool)
    (headline bodyText : String) : Bool :=
  let combined := headline ++ " " ++ bodyText
  defendantRe combined && (dollarRe combined || statuteRe combined || courtRe combined)

/-- `FilterResult` dataclass from `filter.py`. -/
structure FilterResult where
  is_enforcement : Bool
  stage : String
  reason : String
deriving DecidableEq

/-- `is_enforcement_action` from `filter.py`. -/
def isEnforcementAction (override defendantRe dollarRe statuteRe courtRe : String → Bool)
    (headline bodyText : String) : FilterResult :=
  let bodyFirst500 := pyTake bodyText 500
  let screen := keywordScreen override headline bodyFirst500
  if screen = "reject" then
    { is_enforcement := false
      stage := "keyword_reject"
      reason := "Only non-enforcement keywords found (consumer alert, policy statement, etc.)" }
  else if patternValidation defendantRe dollarRe statuteRe courtRe headline bodyText then
    { is_enforcement := true
      stage := if screen = "pass" then "pattern_pass" else "pattern_pass_ambiguous"
      reason := "Enforcement keywords and/or defendant + enforcement pattern found" }
  else if screen = "pass" then
    { is_enforcement := false
      stage := "keyword_pass_no_pattern"
      reason := "Enforcement keywords found but no defendant/amount/statute pattern - likely commentary" }
  else
    { is_enforcement := false
      stage := "pattern_reject"
      reason := "No enforcement keywords or patterns found" }

/-- The headline plus first 500 body characters, lowercased, as screened by
stage 1. -/
def screenText (headline bodyText : String) : String :=
  pyLower (headline ++ " " ++ pyTake bodyText 500)

/-- Stage-1 enforcement-keyword hit. -/
def hasEnforcementKw (headline bodyText : String) : Bool :=
  enforcementKeywords.any (fun kw => containsSub kw (screenText headline bodyText))

/-- Stage-1 non-enforcement-keyword hit. -/
def hasNonEnforcementKw (headline bodyText : String) : Bool :=
  nonEnforcementKeywords.any (fun kw => containsSub kw (screenText headline bodyText))

/-- C2: `is_enforcement_action` accepts iff no headline override fires, the
keyword screen is not a pure non-enforcement hit, and the stage-2 pattern
check (defendant and one of dollar / statute / court over headline plus full
body) succeeds. -/
theorem c2_is_enforcement_iff (override defendantRe dollarRe statuteRe courtRe : String → Bool)
    (headline bodyText : String) :
    (isEnforcementAction override defendantRe dollarRe statuteRe courtRe headline
        bodyText).is_enforcement = true ↔
      (override headline = false ∧
        ¬(hasNonEnforcementKw headline bodyText = true ∧
          hasEnforcementKw headline bodyText = false) ∧
        (defendantRe (headline ++ " " ++ bodyText) = true ∧
          (dollarRe (headline ++ " " ++ bodyText) = true ∨
            statuteRe (headline ++ " " ++ bodyText) = true ∨
            courtRe (headline ++ " " ++ bodyText) = true))) := by
  unfold isEnforcementAction keywordScreen patternValidation hasNonEnforcementKw
    hasEnforcementKw screenText
  cases hov : override headline <;>
    cases he : enforcementKeywords.any
      (fun kw => containsSub kw (pyLower (headline ++ " " ++ pyTake bodyText 500))) <;>
    cases hne : nonEnforcementKeywords.any
      (fun kw => containsSub kw (pyLower (headline ++ " " ++ pyTake bodyText 500))) <;>
    cases hd : defendantRe (headline ++ " " ++ bodyText) <;>
    cases hm : dollarRe (headline ++ " " ++ bodyText) <;>
    cases hs : statuteRe (headline ++ " " ++ bodyText) <;>
    cases hc : courtRe (headline ++ " " ++ bodyText) <;>
    simp [hov, he, hne, hd, hm, hs, hc]

/-- C2 witness: a concrete document on which the classifier accepts, via the
main theorem. -/
theorem c2_is_enforcement_iff_witness :
    (isEnforcementAction (fun _ => false) (fun _ => true) (fun _ => true)
        (fun _ => false) (fun _ => false) "AG Announces Settlement with Acme"
        "Acme agrees to pay a civil penalty.").is_enforcement = true :=
  (c2_is_enforcement_iff (fun _ => false) (fun _ => true) (fun _ => true)
      (fun _ => false) (fun _ => false) "AG Announces Settlement with Acme"
      "Acme agrees to pay a civil penalty.").mpr
    (by refine ⟨rfl, ?_, rfl, Or.inl rfl⟩; decide)

/-! ## `src/extractors/patterns.py` — settlement-amount selection

`ExtractedAmount.amount` (a `decimal.Decimal`) is modelled as `ℚ`.
`extract_dollar_amounts` (driven by `_DOLLAR_RE.finditer`), the single
search of `_SETTLEMENT_CONTEXT_RE`, the searches of
`_NON_SETTLEMENT_CONTEXT_RE` and `_APPROX_RE`, and the two substitutions of
`_fix_headline_spacing` are regex primitives and enter as the fields of
`AmountOracles`; the selection logic, the $30B sanity cap, the contextual
80-character window, the `Decimal` parse, and the multiplier arithmetic are
embedded concretely. -/

structure ExtractedAmount where
  raw_text : String
  amount : ℚ
  is_estimated : Bool
deriving DecidableEq

/-- A successful `_SETTLEMENT_CONTEXT_RE.search(body)`: match start,
`group(0)`, `group(1)` (the numeric text) and `group(2)` (the multiplier
word, if present). -/
structure SettleCtxMatch where
  start : Nat
  raw : String
  numStr : String
  mult : Option String
deriving DecidableEq

/-- The regex primitives used by `extract_settlement_amount`. -/
structure AmountOracles where
  /-- `extract_dollar_amounts` (built on `_DOLLAR_RE.finditer`). -/
  dollarAmounts : String → List ExtractedAmount
  /-- `_SETTLEMENT_CONTEXT_RE.search`. -/
  settlementCtx : String → Option SettleCtxMatch
  /-- `_NON_SETTLEMENT_CONTEXT_RE.search` (boolean hit on a text window). -/
  nonSettleRe : String → Bool
  /-- `_APPROX_RE.search` (boolean hit on a text window). -/
  approxRe : String → Bool
  /-- `_fix_headline_spacing` (two `re.sub` passes). -/
  fixSpacing : String → String

/-- `_MULTIPLIERS.get(word.lower(), Decimal("1"))`. -/
def multiplierValue (w : String) : ℚ :=
  match pyLower w with
  | "thousand" => 1000
  | "million" => 1000000
  | "billion" => 1000000000
  | "k" => 1000
  | "m" => 1000000
  | "b" => 1000000000
  | _ => 1

def digitsToNat (l : List Char) : Nat :=
  l.foldl (fun acc c => acc * 10 + (c.toNat - 48)) 0

/-- `Decimal(num_str)` on the comma-free numeric strings produced by the
amount regexes (`\d+` with an optional `.\d+` fraction); anything else is
`InvalidOperation`, modelled as `none`. -/
def parseDecimal (s : String) : Option ℚ :=
  match s.data.splitOn '.' with
  | [ip] =>
      if ip ≠ [] ∧ ip.all isAsciiDigit then some (digitsToNat ip : ℚ) else none
  | [ip, fp] =>
      if ip ≠ [] ∧ fp ≠ [] ∧ ip.all isAsciiDigit ∧ fp.all isAsciiDigit then
        some ((digitsToNat ip : ℚ) + (digitsToNat fp : ℚ) / ((10 : ℚ) ^ fp.length))
      else none
  | _ => none

/-- `num_str.replace(",", "")`. -/
def removeCommas (s : String) : String := String.mk (s.data.filter (fun c => c ≠ ','))

/-- `_is_non_settlement_context(text, match_start)`: search the
disqualifying regex over the 80-character window around the match. -/
def isNonSettlementContext (nonSettleRe : String → Bool) (text : String)
    (matchStart : Int) : Bool :=
  let start := max 0 (matchStart - 80)
  let stop := min (text.data.length : Int) (matchStart + 80)
  nonSettleRe (pySlice text start.toNat stop.toNat)

/-- `_MAX_SETTLEMENT`: the $30B universal sanity cap. -/
def maxSettlement : ℚ := 30000000000

/-- Python `max(amounts, key=lambda a: a.amount)` (first maximal element),
`none` on the empty list. -/
def maxByAmount : List ExtractedAmount → Option ExtractedAmount
  | [] => none
  | a :: t => some (t.foldl (fun best x => if x.amount > best.amount then x else best) a)

/-- Priority 1 of `extract_settlement_amount`: headline amounts that are not
in a disqualifying context and do not exceed the cap.  The disqualification
window is anchored at `headline.find(a.raw_text)`, as in the source. -/
def headlineEligibleAmounts (O : AmountOracles) (headline : String) : List ExtractedAmount :=
  let h := O.fixSpacing headline
  (O.dollarAmounts h).filter (fun a =>
    !isNonSettlementContext O.nonSettleRe h (pyFind h a.raw_text) &&
      a.amount ≤ maxSettlement)

/-- Priority 2 of `extract_settlement_amount`: the settlement-context match
in the body, if it is not disqualified, parses, and respects the cap. -/
def settlementCtxAmount (O : AmountOracles) (body : String) : Option ExtractedAmount :=
  match O.settlementCtx body with
  | none => none
  | some m =>
    if isNonSettlementContext O.nonSettleRe body (m.start : Int) then none
    else
      match parseDecimal (removeCommas m.numStr) with
      | none => none
      | some v0 =>
        let v := match m.mult with
          | some w => v0 * multiplierValue w
          | none => v0
        if v ≤ maxSettlement then
          some { raw_text := m.raw, amount := v,
                 is_estimated := O.approxRe (pySlice body (m.start - 40) m.start) }
        else none

/-- Priority 3 of `extract_settlement_amount`: surviving amounts in the
first 1,500 body characters. -/
def fallbackEligibleAmounts (O : AmountOracles) (body : String) : List ExtractedAmount :=
  let bodyHead := O.fixSpacing (pyTake body 1500)
  (O.dollarAmounts bodyHead).filter (fun a =>
    !isNonSettlementContext O.nonSettleRe bodyHead (pyFind bodyHead a.raw_text) &&
      a.amount ≤ maxSettlement)

/-- `extract_settlement_amount` from `patterns.py`. -/
def extractSettlementAmount (O : AmountOracles) (headline body : String) :
    Option ExtractedAmount :=
  match maxByAmount (headlineEligibleAmounts O headline) with
  | some a => some a
  | none =>
    match settlementCtxAmount O body with
    | some a => some a
    | none => maxByAmount (fallbackEligibleAmounts O body)

theorem maxByAmount_mem {l : List ExtractedAmount} {a : ExtractedAmount}
    (h : maxByAmount l = some a) : a ∈ l := by
  match l with
  | [] => simp [maxByAmount] at h
  | b :: t =>
    simp only [maxByAmount, Option.some.injEq] at h
    subst h
    have : ∀ (t : List ExtractedAmount) (b : ExtractedAmount),
        t.foldl (fun best x => if x.amount > best.amount then x else best) b ∈ b :: t := by
      intro t
      induction t with
      | nil => intro b; simp
      | cons c t ih =>
        intro b
        simp only [List.foldl_cons]
        by_cases hc : c.amount > b.amount
        · simp only [if_pos hc]
          have := ih c
          simp only [List.mem_cons] at this ⊢
          tauto
        · simp only [if_neg hc]
          have := ih b
          simp only [List.mem_cons] at this ⊢
          tauto
    exact this t b

/-- C3: `extract_settlement_amount` follows the fixed priority
headline → settlement-context → capped fallback, and any returned amount is
at most the $30B cap. -/
theorem c3_settlement_amount_priority (O : AmountOracles) (headline body : String) :
    (headlineEligibleAmounts O headline ≠ [] →
      extractSettlementAmount O headline body =
        maxByAmount (headlineEligibleAmounts O headline)) ∧
    (headlineEligibleAmounts O headline = [] →
      ∀ a, settlementCtxAmount O body = some a →
        extractSettlementAmount O headline body = some a) ∧
    (headlineEligibleAmounts O headline = [] →
      settlementCtxAmount O body = none →
      extractSettlementAmount O headline body =
        maxByAmount (fallbackEligibleAmounts O body)) ∧
    (∀ a, extractSettlementAmount O headline body = some a →
      a.amount ≤ maxSettlement) := by
  refine ⟨?_, ?_, ?_, ?_⟩
  · intro hne
    unfold extractSettlementAmount
    cases h : maxByAmount (headlineEligibleAmounts O headline) with
    | some a => simp
    | none =>
      cases hl : headlineEligibleAmounts O headline with
      | nil => exact absurd hl hne
      | cons b t => rw [hl] at h; simp [maxByAmount] at h
  · intro he a ha
    unfold extractSettlementAmount
    rw [he, ha]
    simp [maxByAmount]
  · intro he hc
    unfold extractSettlementAmount
    rw [he, hc]
    simp [maxByAmount]
  · intro a ha
    unfold extractSettlementAmount at ha
    cases h1 : maxByAmount (headlineEligibleAmounts O headline) with
    | some b =>
      rw [h1] at ha
      simp only [Option.some.injEq] at ha
      subst ha
      have := maxByAmount_mem h1
      simp only [headlineEligibleAmounts, List.mem_filter, Bool.and_eq_true,
        decide_eq_true_eq] at this
      exact this.2.2
    | none =>
      rw [h1] at ha
      cases h2 : settlementCtxAmount O body with
      | some b =>
        rw [h2] at ha
        simp only [Option.some.injEq] at ha
        subst ha
        unfold settlementCtxAmount at h2
        cases hm : O.settlementCtx body with
        | none => rw [hm] at h2; simp at h2
        | some m =>
          rw [hm] at h2
          simp only at h2
          by_cases hctx : isNonSettlementContext O.nonSettleRe body (m.start : Int) = true
          · simp [hctx] at h2
          · rw [if_neg hctx] at h2
            cases hp : parseDecimal (removeCommas m.numStr) with
            | none => rw [hp] at h2; simp at h2
            | some v0 =>
              rw [hp] at h2
              simp only at h2
              split at h2
              · simp only [Option.some.injEq] at h2
                subst h2
                assumption
              · simp at h2
      | none =>
        rw [h2] at ha
        have := maxByAmount_mem ha
        simp only [fallbackEligibleAmounts, List.mem_filter, Bool.and_eq_true,
          decide_eq_true_eq] at this
        exact this.2.2

/-- C3 witness: a concrete run through priority 1, with the cap hypothesis
and branch hypotheses discharged concretely. -/
theorem c3_settlement_amount_priority_witness :
    extractSettlementAmount
        { dollarAmounts := fun _ => [{ raw_text := "$5 million", amount := 5000000,
                                       is_estimated := false }]
          settlementCtx := fun _ => none
          nonSettleRe := fun _ => false
          approxRe := fun _ => false
          fixSpacing := fun s => s }
        "AG Secures $5 million Settlement" "Acme will pay $5 million." =
      some { raw_text := "$5 million", amount := 5000000, is_estimated := false } := by
  have h := (c3_settlement_amount_priority
      { dollarAmounts := fun _ => [{ raw_text := "$5 million", amount := 5000000,
                                     is_estimated := false }]
        settlementCtx := fun _ => none
        nonSettleRe := fun _ => false
        approxRe := fun _ => false
        fixSpacing := fun s => s }
      "AG Secures $5 million Settlement" "Acme will pay $5 million.").1
  rw [h (by decide)]
  decide

/-! ## `src/validation/schemas.py` and `src/extractors/press_release.py`

`uuid.uuid4()` draws are modelled by an explicit supply `ids : Nat → Nat`
(draw number `i` is `ids i`), `datetime.date.today()` by `today : ℤ` and
`datetime.datetime.utcnow()` by `now : ℤ`: these are exactly the
nondeterministic inputs the Python code reads.  The module-level extractor
functions imported from `patterns.py` (each a regex battery, plus the
config-file-driven violation taxonomy of `_classify_violations` and the
blocklists) enter as the fields of `ExtractOracles`; the record-building
control flow, the monetary-terms gate, defendant deduplication, status
inference, summary generation and the quality score are embedded
concretely. -/

inductive ActionType
  | settlement
  | lawsuit_filed
  | consent_decree
  | assurance_of_discontinuance
  | judgment
  | injunction
  | other
deriving DecidableEq, Fintype

inductive ActionStatus
  | announced
  | pending
  | settled
  | ongoing
  | closed
deriving DecidableEq

inductive EntityType
  | corporation
  | individual
  | organization
  | government_entity
deriving DecidableEq

inductive ExtractionMethod
  | rules
  | llm
  | hybrid
deriving DecidableEq

structure DefendantSchema where
  id : Nat
  raw_name : String
  canonical_name : String
  entity_type : EntityType
  industry : Option String
  parent_company : Option String
  sec_cik : Option String
deriving DecidableEq

structure ViolationCategorySchema where
  action_id : Nat
  category : String
  subcategory : Option String
  confidence : ℚ
deriving DecidableEq

structure MonetaryTermsSchema where
  action_id : Nat
  total_amount : ℚ
  civil_penalty : Option ℚ
  consumer_restitution : Option ℚ
  fees_and_costs : Option ℚ
  other_monetary : Option ℚ
  amount_is_estimated : Bool
deriving DecidableEq

structure StatuteCitedSchema where
  action_id : Nat
  statute_raw : String
  statute_normalized : String
  statute_name : String
  is_state_statute : Bool
  is_federal_statute : Bool
deriving DecidableEq

structure EnforcementActionSchema where
  id : Nat
  state : String
  date_announced : Int
  date_filed : Option Int
  date_resolved : Option Int
  action_type : ActionType
  status : ActionStatus
  headline : String
  summary : String
  source_url : String
  settlement_doc_url : Option String
  is_multistate : Bool
  multistate_action_id : Option Nat
  quality_score : ℚ
  extraction_method : ExtractionMethod
  raw_text : String
  created_at : Int
  updated_at : Int
  defendants : List DefendantSchema
  violation_categories : List ViolationCategorySchema
  monetary_terms : Option MonetaryTermsSchema
  statutes_cited : List StatuteCitedSchema
deriving DecidableEq

structure PressRelease where
  title : String
  url : String
  date : Option Int
  state : String
  body_html : String
  body_text : String
deriving DecidableEq

/-- `ExtractedStatute` dataclass from `patterns.py`. -/
structure ExtractedStatute where
  raw_citation : String
  is_state : Bool
  is_federal : Bool
  common_name : String
deriving DecidableEq

/-- Result dict of `classify_monetary_components` (keys present or not). -/
structure MonComp where
  civil_penalty : Option ℚ
  consumer_restitution : Option ℚ
  fees_and_costs : Option ℚ
deriving DecidableEq

/-- Python truthiness of the components dict (`{}` is falsy). -/
def MonComp.nonempty (m : MonComp) : Bool :=
  m.civil_penalty.isSome || m.consumer_restitution.isSome || m.fees_and_costs.isSome

/-- The extractor primitives imported by `press_release.py` from
`patterns.py` (regex batteries) plus the taxonomy-driven violation
classifier. -/
structure ExtractOracles where
  classifyActionType : String → String → ActionType
  extractFiledDate : String → Option Int
  extractResolvedDate : String → Option Int
  extractSettlementAmountFn : String → String → Option ExtractedAmount
  classifyMonetaryComponents : String → MonComp
  extractDefendantsFromHeadline : String → List String
  extractDefendantsFromBody : String → List String
  extractStatutes : String → List ExtractedStatute
  classifyViolations : String → String → List (String × Option String × ℚ)
  isMultistateAction : String → String → Bool

/-- `_AMOUNT_ELIGIBLE_TYPES` from `press_release.py`. -/
def amountEligibleTypes : List ActionType :=
  [.settlement, .judgment, .consent_decree, .assurance_of_discontinuance]

/-- `PressReleaseExtractor._infer_status`. -/
def inferStatus : ActionType → ActionStatus
  | .settlement => .settled
  | .consent_decree => .settled
  | .judgment => .settled
  | .lawsuit_filed => .pending
  | .injunction => .ongoing
  | _ => .announced

/-- The `seen`-keyed deduplication of `PressReleaseExtractor.
_extract_defendants` (key `name.lower().strip()`, first occurrence wins). -/
def dedupDefendantsAux : List String → List String → List String → List String
  | [], acc, _ => acc
  | name :: rest, acc, seen =>
    let key := pyStrip (pyLower name)
    if key ∈ seen then dedupDefendantsAux rest acc seen
    else dedupDefendantsAux rest (acc ++ [name]) (seen ++ [key])

/-- `PressReleaseExtractor._extract_defendants`: headline names first, then
body names, deduplicated by lowercased-stripped key. -/
def extractDefendants (O : ExtractOracles) (headline body : String) : List String :=
  dedupDefendantsAux
    (O.extractDefendantsFromHeadline headline ++ O.extractDefendantsFromBody body) [] []

/-- `PressReleaseExtractor._generate_summary`: accumulate sentences ending
in `.!?` with more than 20 accumulated characters, stop after 3. -/
def generateSummaryAux : List Char → List Char → List String → List String
  | [], _, sentences => sentences
  | c :: rest, current, sentences =>
    let current := current ++ [c]
    if (c = '.' || c = '!' || c = '?') && current.length > 20 then
      let sentence := pyStrip (String.mk current)
      let sentences := if sentence ≠ "" then sentences ++ [sentence] else sentences
      if sentences.length ≥ 3 then sentences
      else generateSummaryAux rest [] sentences
    else generateSummaryAux rest current sentences

def generateSummary (body : String) : String :=
  pyStrip (String.intercalate " " (generateSummaryAux body.data [] []))

/-- Python's built-in banker's rounding to the nearest integer
(round half to even). -/
def pyRoundHalfEven (r : ℚ) : ℤ :=
  let fl := ⌊r⌋
  let frac := r - (fl : ℚ)
  if frac < 1/2 then fl
  else if 1/2 < frac then fl + 1
  else if fl % 2 = 0 then fl else fl + 1

/-- Python `round(q, 2)`. -/
def roundTo2 (q : ℚ) : ℚ := ((pyRoundHalfEven (q * 100) : ℤ) : ℚ) / 100

/-- One accumulation step of `_compute_quality_score`:
`if flag: score += delta`. -/
def qsStep (c : Bool) (delta score : ℚ) : ℚ := if c then score + delta else score

/-- The dollar-amount step of `_compute_quality_score` (full credit for an
amount, partial credit when no amount is expected). -/
def qsAmountStep (has_amount : Bool) (action_type : ActionType) (score : ℚ) : ℚ :=
  if has_amount then score + 20/100
  else if action_type = .injunction ∨ action_type = .lawsuit_filed then score + 10/100
  else score

/-- The body-length step of `_compute_quality_score`. -/
def qsBodyStep (body_length : Nat) (score : ℚ) : ℚ :=
  if body_length > 500 then score + 10/100
  else if body_length > 200 then score + 5/100
  else score

/-- The specific-action-type step of `_compute_quality_score`. -/
def qsTypeStep (action_type : ActionType) (score : ℚ) : ℚ :=
  if action_type ≠ .other then score + 5/100 else score

/-- `PressReleaseExtractor._compute_quality_score`. -/
def computeQualityScore (has_defendants has_amount has_category has_statute has_date : Bool)
    (action_type : ActionType) (body_length : Nat) : ℚ :=
  let score : ℚ := 0
  let score := qsStep has_date (15/100) score
  let score := qsStep has_defendants (25/100) score
  let score := qsAmountStep has_amount action_type score
  let score := qsStep has_category (15/100) score
  let score := qsStep has_statute (10/100) score
  let score := qsBodyStep body_length score
  let score := qsTypeStep action_type score
  min 1 (roundTo2 score)

/-- `PressReleaseExtractor.extract` from `press_release.py`. -/
def extract (O : ExtractOracles) (pr : PressRelease) (dateAnnounced : Option Int)
    (ids : Nat → Nat) (today now : Int) : EnforcementActionSchema :=
  let headline := pr.title
  let body := pr.body_text
  let announced := dateAnnounced.orElse (fun _ => pr.date)
  let action_type := O.classifyActionType headline body
  let status := inferStatus action_type
  let date_filed := O.extractFiledDate body
  let date_resolved := O.extractResolvedDate body
  let largest_amount := O.extractSettlementAmountFn headline body
  let monetary_components := O.classifyMonetaryComponents body
  let defendants := extractDefendants O headline body
  let statutes := O.extractStatutes body
  let categories := O.classifyViolations headline body
  let multistate := O.isMultistateAction headline body
  let summary := generateSummary body
  let action_id := ids 0
  let monetary_terms :=
    if action_type ∈ amountEligibleTypes ∧
        (largest_amount.isSome ∨ monetary_components.nonempty) then
      some { action_id := action_id
             total_amount := (largest_amount.map ExtractedAmount.amount).getD 0
             civil_penalty := monetary_components.civil_penalty
             consumer_restitution := monetary_components.consumer_restitution
             fees_and_costs := monetary_components.fees_and_costs
             other_monetary := none
             amount_is_estimated :=
               (largest_amount.map ExtractedAmount.is_estimated).getD false }
    else none
  let violation_schemas := categories.map (fun c =>
    { action_id := action_id, category := c.1, subcategory := c.2.1,
      confidence := c.2.2 : ViolationCategorySchema })
  let statute_schemas := statutes.map (fun s =>
    { action_id := action_id, statute_raw := s.raw_citation, statute_normalized := "",
      statute_name := s.common_name, is_state_statute := s.is_state,
      is_federal_statute := s.is_federal : StatuteCitedSchema })
  let defendant_schemas := defendants.enum.map (fun p =>
    { id := ids (p.1 + 1), raw_name := p.2, canonical_name := "",
      entity_type := .corporation, industry := none, parent_company := none,
      sec_cik := none : DefendantSchema })
  let has_real_category := categories.any (fun c => c.1 ≠ "other")
  let quality_score := computeQualityScore (decide (defendants ≠ []))
    largest_amount.isSome has_real_category (decide (statutes ≠ []))
    announced.isSome action_type body.length
  { id := action_id
    state := pyUpper pr.state
    date_announced := announced.getD today
    date_filed := date_filed
    date_resolved := date_resolved
    action_type := action_type
    status := status
    headline := headline
    summary := summary
    source_url := pr.url
    settlement_doc_url := none
    is_multistate := multistate
    multistate_action_id := none
    quality_score := quality_score
    extraction_method := .rules
    raw_text := body
    created_at := now
    updated_at := now
    defendants := defendant_schemas
    violation_categories := violation_schemas
    monetary_terms := monetary_terms
    statutes_cited := statute_schemas }

theorem pyRoundHalfEven_mono {r s : ℚ} (h : r ≤ s) :
    pyRoundHalfEven r ≤ pyRoundHalfEven s := by
  unfold pyRoundHalfEven
  have hfl : ⌊r⌋ ≤ ⌊s⌋ := Int.floor_le_floor h
  rcases lt_or_eq_of_le hfl with hlt | heq
  · have h1 : (if r - (⌊r⌋ : ℚ) < 1/2 then ⌊r⌋
        else if 1/2 < r - (⌊r⌋ : ℚ) then ⌊r⌋ + 1
        else if ⌊r⌋ % 2 = 0 then ⌊r⌋ else ⌊r⌋ + 1) ≤ ⌊r⌋ + 1 := by
      split_ifs <;> omega
    have h2 : ⌊s⌋ ≤ (if s - (⌊s⌋ : ℚ) < 1/2 then ⌊s⌋
        else if 1/2 < s - (⌊s⌋ : ℚ) then ⌊s⌋ + 1
        else if ⌊s⌋ % 2 = 0 then ⌊s⌋ else ⌊s⌋ + 1) := by
      split_ifs <;> omega
    simp only at h1 h2 ⊢
    omega
  · rw [← heq]
    have hfr : r - (⌊r⌋ : ℚ) ≤ s - (⌊r⌋ : ℚ) := by linarith
    simp only
    split_ifs <;> first | omega | linarith

theorem pyRoundHalfEven_nonneg {r : ℚ} (h : 0 ≤ r) : 0 ≤ pyRoundHalfEven r := by
  unfold pyRoundHalfEven
  have hfl : (0 : ℤ) ≤ ⌊r⌋ := Int.floor_nonneg.mpr h
  simp only
  split_ifs <;> omega

theorem roundTo2_mono {q r : ℚ} (h : q ≤ r) : roundTo2 q ≤ roundTo2 r := by
  unfold roundTo2
  have hf : pyRoundHalfEven (q * 100) ≤ pyRoundHalfEven (r * 100) :=
    pyRoundHalfEven_mono (by linarith)
  have hc : ((pyRoundHalfEven (q * 100) : ℤ) : ℚ) ≤ ((pyRoundHalfEven (r * 100) : ℤ) : ℚ) := by
    exact_mod_cast hf
  linarith

theorem roundTo2_nonneg {q : ℚ} (h : 0 ≤ q) : 0 ≤ roundTo2 q := by
  unfold roundTo2
  have hf : (0 : ℤ) ≤ pyRoundHalfEven (q * 100) := pyRoundHalfEven_nonneg (by linarith)
  have hc : ((0 : ℤ) : ℚ) ≤ ((pyRoundHalfEven (q * 100) : ℤ) : ℚ) := by exact_mod_cast hf
  push_cast at hc
  linarith

theorem qualityWrap_mono {q r : ℚ} (h : q ≤ r) :
    min 1 (roundTo2 q) ≤ min 1 (roundTo2 r) :=
  min_le_min le_rfl (roundTo2_mono h)

theorem qsStep_mono (c : Bool) (delta : ℚ) {s t : ℚ} (h : s ≤ t) :
    qsStep c delta s ≤ qsStep c delta t := by
  unfold qsStep
  split_ifs <;> linarith

theorem qsStep_flag (delta : ℚ) (hd : 0 ≤ delta) {s t : ℚ} (h : s ≤ t) :
    qsStep false delta s ≤ qsStep true delta t := by
  simp only [qsStep, Bool.false_eq_true, if_false, if_true]
  linarith

theorem qsStep_nonneg (c : Bool) (delta : ℚ) (hd : 0 ≤ delta) {s : ℚ} (h : 0 ≤ s) :
    0 ≤ qsStep c delta s := by
  unfold qsStep
  split_ifs <;> linarith

theorem qsAmountStep_mono (a : Bool) (ty : ActionType) {s t : ℚ} (h : s ≤ t) :
    qsAmountStep a ty s ≤ qsAmountStep a ty t := by
  unfold qsAmountStep
  split_ifs <;> linarith

theorem qsAmountStep_flag (ty : ActionType) {s t : ℚ} (h : s ≤ t) :
    qsAmountStep false ty s ≤ qsAmountStep true ty t := by
  unfold qsAmountStep
  split_ifs <;> first | linarith | simp_all

theorem qsAmountStep_nonneg (a : Bool) (ty : ActionType) {s : ℚ} (h : 0 ≤ s) :
    0 ≤ qsAmountStep a ty s := by
  unfold qsAmountStep
  split_ifs <;> linarith

theorem qsBodyStep_mono {b1 b2 : Nat} (hb : b1 ≤ b2) {s t : ℚ} (h : s ≤ t) :
    qsBodyStep b1 s ≤ qsBodyStep b2 t := by
  unfold qsBodyStep
  split_ifs <;> first | (exfalso; omega) | linarith

theorem qsBodyStep_nonneg (b : Nat) {s : ℚ} (h : 0 ≤ s) : 0 ≤ qsBodyStep b s := by
  unfold qsBodyStep
  split_ifs <;> linarith

theorem qsTypeStep_mono (ty : ActionType) {s t : ℚ} (h : s ≤ t) :
    qsTypeStep ty s ≤ qsTypeStep ty t := by
  unfold qsTypeStep
  split_ifs <;> linarith

theorem qsTypeStep_nonneg (ty : ActionType) {s : ℚ} (h : 0 ≤ s) : 0 ≤ qsTypeStep ty s := by
  unfold qsTypeStep
  split_ifs <;> linarith

/-- C4: the quality score is within `[0, 1]` for every input (including an
empty body) and is monotone in each completeness flag and in the body
length. -/
theorem c4_quality_score_bounded_monotone (d a c s dt : Bool) (ty : ActionType) (b : Nat) :
    (0 ≤ computeQualityScore d a c s dt ty b ∧ computeQualityScore d a c s dt ty b ≤ 1) ∧
    computeQualityScore false a c s dt ty b ≤ computeQualityScore true a c s dt ty b ∧
    computeQualityScore d false c s dt ty b ≤ computeQualityScore d true c s dt ty b ∧
    computeQualityScore d a false s dt ty b ≤ computeQualityScore d a true s dt ty b ∧
    computeQualityScore d a c false dt ty b ≤ computeQualityScore d a c true dt ty b ∧
    computeQualityScore d a c s false ty b ≤ computeQualityScore d a c s true ty b ∧
    (∀ b2, b ≤ b2 →
      computeQualityScore d a c s dt ty b ≤ computeQualityScore d a c s dt ty b2) := by
  refine ⟨⟨?_, ?_⟩, ?_, ?_, ?_, ?_, ?_, ?_⟩
  · unfold computeQualityScore
    refine le_min (by norm_num) (roundTo2_nonneg ?_)
    exact qsTypeStep_nonneg _ (qsBodyStep_nonneg _ (qsStep_nonneg _ _ (by norm_num)
      (qsStep_nonneg _ _ (by norm_num) (qsAmountStep_nonneg _ _
        (qsStep_nonneg _ _ (by norm_num) (qsStep_nonneg _ _ (by norm_num) le_rfl))))))
  · exact min_le_left _ _
  · unfold computeQualityScore
    exact qualityWrap_mono (qsTypeStep_mono _ (qsBodyStep_mono le_rfl (qsStep_mono _ _
      (qsStep_mono _ _ (qsAmountStep_mono _ _ (qsStep_flag _ (by norm_num)
        (qsStep_mono _ _ le_rfl)))))))
  · unfold computeQualityScore
    exact qualityWrap_mono (qsTypeStep_mono _ (qsBodyStep_mono le_rfl (qsStep_mono _ _
      (qsStep_mono _ _ (qsAmountStep_flag _
        (qsStep_mono _ _ (qsStep_mono _ _ le_rfl)))))))
  · unfold computeQualityScore
    exact qualityWrap_mono (qsTypeStep_mono _ (qsBodyStep_mono le_rfl (qsStep_mono _ _
      (qsStep_flag _ (by norm_num) (qsAmountStep_mono _ _
        (qsStep_mono _ _ (qsStep_mono _ _ le_rfl)))))))
  · unfold computeQualityScore
    exact qualityWrap_mono (qsTypeStep_mono _ (qsBodyStep_mono le_rfl (qsStep_flag _
      (by norm_num) (qsStep_mono _ _ (qsAmountStep_mono _ _
        (qsStep_mono _ _ (qsStep_mono _ _ le_rfl)))))))
  · unfold computeQualityScore
    exact qualityWrap_mono (qsTypeStep_mono _ (qsBodyStep_mono le_rfl (qsStep_mono _ _
      (qsStep_mono _ _ (qsAmountStep_mono _ _ (qsStep_mono _ _
        (qsStep_flag _ (by norm_num) le_rfl)))))))
  · intro b2 hb
    unfold computeQualityScore
    exact qualityWrap_mono (qsTypeStep_mono _ (qsBodyStep_mono hb (qsStep_mono _ _
      (qsStep_mono _ _ (qsAmountStep_mono _ _ (qsStep_mono _ _
        (qsStep_mono _ _ le_rfl)))))))

/-- C4 witness: concrete evaluation of body-length monotonicity at
`300 ≤ 600`. -/
theorem c4_quality_score_bounded_monotone_witness :
    computeQualityScore true true true true true ActionType.settlement 300 ≤
      computeQualityScore true true true true true ActionType.settlement 600 :=
  (c4_quality_score_bounded_monotone true true true true true ActionType.settlement
      300).2.2.2.2.2.2 600 (by decide)

/-- The monetary-terms field produced by `extract`, by definition. -/
theorem extract_monetary_terms_eq (O : ExtractOracles) (pr : PressRelease)
    (d : Option Int) (ids : Nat → Nat) (today now : Int) :
    (extract O pr d ids today now).monetary_terms =
      if O.classifyActionType pr.title pr.body_text ∈ amountEligibleTypes ∧
          ((O.extractSettlementAmountFn pr.title pr.body_text).isSome ∨
            (O.classifyMonetaryComponents pr.body_text).nonempty) then
        some { action_id := ids 0
               total_amount := ((O.extractSettlementAmountFn pr.title pr.body_text).map
                 ExtractedAmount.amount).getD 0
               civil_penalty := (O.classifyMonetaryComponents pr.body_text).civil_penalty
               consumer_restitution :=
                 (O.classifyMonetaryComponents pr.body_text).consumer_restitution
               fees_and_costs := (O.classifyMonetaryComponents pr.body_text).fees_and_costs
               other_monetary := none
               amount_is_estimated := ((O.extractSettlementAmountFn pr.title pr.body_text).map
                 ExtractedAmount.is_estimated).getD false }
      else none := rfl

/-- C1: `extract` attaches monetary terms only for the amount-eligible
action types; for `lawsuit_filed`, `injunction` and `other` the record
carries no monetary terms, whatever the amount extractors returned. -/
theorem c1_monetary_terms_gate (O : ExtractOracles) (pr : PressRelease) (d : Option Int)
    (ids : Nat → Nat) (today now : Int) :
    ((extract O pr d ids today now).monetary_terms ≠ none →
      O.classifyActionType pr.title pr.body_text ∈ amountEligibleTypes) ∧
    ((O.classifyActionType pr.title pr.body_text = .lawsuit_filed ∨
        O.classifyActionType pr.title pr.body_text = .injunction ∨
        O.classifyActionType pr.title pr.body_text = .other) →
      (extract O pr d ids today now).monetary_terms = none) := by
  constructor
  · intro hne
    rw [extract_monetary_terms_eq] at hne
    by_cases hg : O.classifyActionType pr.title pr.body_text ∈ amountEligibleTypes ∧
        ((O.extractSettlementAmountFn pr.title pr.body_text).isSome ∨
          (O.classifyMonetaryComponents pr.body_text).nonempty)
    · exact hg.1
    · rw [if_neg hg] at hne
      exact absurd rfl hne
  · intro hty
    rw [extract_monetary_terms_eq, if_neg]
    rintro ⟨hmem, -⟩
    rcases hty with h | h | h <;> rw [h] at hmem <;>
      simp [amountEligibleTypes] at hmem

/-- A concrete press release used to instantiate the record builder. -/
def prEx : PressRelease :=
  { title := "AG Sues Acme Over Fees", url := "https://example.org/pr",
    date := some 20000, state := "CA", body_html := "", body_text := "Acme was sued." }

/-- Concrete extractor primitives: a lawsuit classification together with an
extracted dollar amount (the case C1 is about). -/
def lawsuitOracles : ExtractOracles :=
  { classifyActionType := fun _ _ => .lawsuit_filed
    extractFiledDate := fun _ => none
    extractResolvedDate := fun _ => none
    extractSettlementAmountFn := fun _ _ =>
      some { raw_text := "$5 million", amount := 5000000, is_estimated := false }
    classifyMonetaryComponents := fun _ =>
      { civil_penalty := none, consumer_restitution := none, fees_and_costs := none }
    extractDefendantsFromHeadline := fun _ => ["Acme"]
    extractDefendantsFromBody := fun _ => []
    extractStatutes := fun _ => []
    classifyViolations := fun _ _ => []
    isMultistateAction := fun _ _ => false }

/-- C1 witness: a lawsuit document with an extracted dollar amount still
gets `monetary_terms = none`. -/
theorem c1_monetary_terms_gate_witness :
    (extract lawsuitOracles prEx none (fun _ => 0) 0 0).monetary_terms = none :=
  (c1_monetary_terms_gate lawsuitOracles prEx none (fun _ => 0) 0 0).2 (Or.inl rfl)

/-- Drop the randomly drawn ids from the child schemas, for comparing the
deterministic content of two extractions. -/
def stripDefendantId (dd : DefendantSchema) : DefendantSchema := { dd with id := 0 }

def stripViolationId (v : ViolationCategorySchema) : ViolationCategorySchema :=
  { v with action_id := 0 }

def stripStatuteId (s : StatuteCitedSchema) : StatuteCitedSchema := { s with action_id := 0 }

def stripMonetaryId (m : MonetaryTermsSchema) : MonetaryTermsSchema := { m with action_id := 0 }

theorem extract_defendants_eq (O : ExtractOracles) (pr : PressRelease)
    (d : Option Int) (ids : Nat → Nat) (today now : Int) :
    (extract O pr d ids today now).defendants =
      (extractDefendants O pr.title pr.body_text).enum.map (fun p =>
        { id := ids (p.1 + 1), raw_name := p.2, canonical_name := "",
          entity_type := .corporation, industry := none, parent_company := none,
          sec_cik := none : DefendantSchema }) := rfl

theorem extract_violations_eq (O : ExtractOracles) (pr : PressRelease)
    (d : Option Int) (ids : Nat → Nat) (today now : Int) :
    (extract O pr d ids today now).violation_categories =
      (O.classifyViolations pr.title pr.body_text).map (fun c =>
        { action_id := ids 0, category := c.1, subcategory := c.2.1,
          confidence := c.2.2 : ViolationCategorySchema }) := rfl

theorem extract_statutes_eq (O : ExtractOracles) (pr : PressRelease)
    (d : Option Int) (ids : Nat → Nat) (today now : Int) :
    (extract O pr d ids today now).statutes_cited =
      (O.extractStatutes pr.body_text).map (fun s =>
        { action_id := ids 0, statute_raw := s.raw_citation, statute_normalized := "",
          statute_name := s.common_name, is_state_statute := s.is_state,
          is_federal_statute := s.is_federal : StatuteCitedSchema }) := rfl

/-- C9 (amended): the classifier is a pure function of its inputs, and the
record builder is deterministic in everything except the freshly drawn
ids, the two `utcnow` timestamps and the `date.today()` fallback used when
no announcement date is known. -/
theorem c9_per_document_determinism (O : ExtractOracles) (pr : PressRelease)
    (d : Option Int) (ids1 ids2 : Nat → Nat) (today1 today2 now1 now2 : Int) :
    (∀ (ov dRe mRe sRe cRe : String → Bool) (h1 b1 h2 b2 : String), h1 = h2 → b1 = b2 →
      isEnforcementAction ov dRe mRe sRe cRe h1 b1 =
        isEnforcementAction ov dRe mRe sRe cRe h2 b2) ∧
    ((extract O pr d ids1 today1 now1).state = (extract O pr d ids2 today2 now2).state ∧
      (extract O pr d ids1 today1 now1).date_filed =
        (extract O pr d ids2 today2 now2).date_filed ∧
      (extract O pr d ids1 today1 now1).date_resolved =
        (extract O pr d ids2 today2 now2).date_resolved ∧
      (extract O pr d ids1 today1 now1).action_type =
        (extract O pr d ids2 today2 now2).action_type ∧
      (extract O pr d ids1 today1 now1).status = (extract O pr d ids2 today2 now2).status ∧
      (extract O pr d ids1 today1 now1).headline =
        (extract O pr d ids2 today2 now2).headline ∧
      (extract O pr d ids1 today1 now1).summary =
        (extract O pr d ids2 today2 now2).summary ∧
      (extract O pr d ids1 today1 now1).source_url =
        (extract O pr d ids2 today2 now2).source_url ∧
      (extract O pr d ids1 today1 now1).is_multistate =
        (extract O pr d ids2 today2 now2).is_multistate ∧
      (extract O pr d ids1 today1 now1).quality_score =
        (extract O pr d ids2 today2 now2).quality_score ∧
      (extract O pr d ids1 today1 now1).extraction_method =
        (extract O pr d ids2 today2 now2).extraction_method ∧
      (extract O pr d ids1 today1 now1).raw_text =
        (extract O pr d ids2 today2 now2).raw_text) ∧
    ((extract O pr d ids1 today1 now1).defendants.map stripDefendantId =
      (extract O pr d ids2 today2 now2).defendants.map stripDefendantId ∧
      (extract O pr d ids1 today1 now1).violation_categories.map stripViolationId =
        (extract O pr d ids2 today2 now2).violation_categories.map stripViolationId ∧
      (extract O pr d ids1 today1 now1).statutes_cited.map stripStatuteId =
        (extract O pr d ids2 today2 now2).statutes_cited.map stripStatuteId ∧
      (extract O pr d ids1 today1 now1).monetary_terms.map stripMonetaryId =
        (extract O pr d ids2 today2 now2).monetary_terms.map stripMonetaryId) := by
  refine ⟨fun ov dRe mRe sRe cRe h1 b1 h2 b2 hh hb => by rw [hh, hb],
    ⟨rfl, rfl, rfl, rfl, rfl, rfl, rfl, rfl, rfl, rfl, rfl, rfl⟩, ?_, ?_, ?_, ?_⟩
  · rw [extract_defendants_eq, extract_defendants_eq, List.map_map, List.map_map]
    rfl
  · rw [extract_violations_eq, extract_violations_eq, List.map_map, List.map_map]
    rfl
  · rw [extract_statutes_eq, extract_statutes_eq, List.map_map, List.map_map]
    rfl
  · rw [extract_monetary_terms_eq, extract_monetary_terms_eq]
    split_ifs <;> rfl

/-- C9 witness: the determinism statement applied at concrete inputs. -/
theorem c9_per_document_determinism_witness :
    (extract lawsuitOracles prEx none (fun _ => 5) 0 0).headline =
      (extract lawsuitOracles prEx none (fun _ => 9) 0 0).headline :=
  ((c9_per_document_determinism lawsuitOracles prEx none (fun _ => 5) (fun _ => 9)
      0 0 0 0).2.1).2.2.2.2.2.1

/-- C9 counterexample: the claim as stated — two calls of `extract` on the
same document yield equal records — fails, because each call draws a fresh
`uuid4` for the record id; here the two draws differ. -/
theorem c9_counterexample :
    extract lawsuitOracles prEx none (fun _ => 0) 0 0 ≠
      extract lawsuitOracles prEx none (fun _ => 1) 0 0 := by
  intro h
  have h2 : (0 : Nat) = 1 := congrArg EnforcementActionSchema.id h
  exact absurd h2 (by decide)

/-! ## `src/normalization/entities.py` — entity resolver

`thefuzz.fuzz.token_sort_ratio` (third-party) enters as the scorer
parameter `fz : String → String → Nat`; the four substitution regex
batteries of `clean_name` (`_TRAILING_FRAGMENTS`, `_LEADING_DESCRIPTORS`,
`_LEADING_ARTICLES`, `_LEGAL_SUFFIXES`) enter as the fields of
`CleanOracles`, and the configuration-file blocklist plus the
`_GARBAGE_NAME_PATTERNS` battery of `is_valid_canonical_name` as the
fields of `ValidOracles`.  The stopword set, the short-token shape check
`^[A-Z0-9]{2,3}$`, the pure-number check, the cleaning pipeline order, the
alias lookups, the fuzzy-match thresholds, the length-ratio guard and the
state evolution are embedded concretely.  The candidate length ratio is
compared in `ℚ` where Python compares floats; the two agree on every
ratio of string lengths against the cutoffs 0.4 and 2.5. -/

/-- The four substitution batteries used by `clean_name`
(`pattern.sub("", name)` or prefix stripping). -/
structure CleanOracles where
  trailingSub : String → String
  descriptorSub : String → String
  articlesSub : String → String
  suffixSub : String → String

/-- The defendant blocklist (configuration) and the garbage-name regex
battery used by `is_valid_canonical_name`. -/
structure ValidOracles where
  blockExact : List String
  blockPat : String → Bool
  garbagePat : String → Bool

/-- The bounded suffix-stripping loop of `clean_name`
(`for _ in range(3): ... if name == prev: break`). -/
def suffixStripLoop (suffixSub : String → String) : Nat → String → String
  | 0, name => name
  | k + 1, name =>
    let name2 := pyRstripPunct (pyStrip (suffixSub name))
    if name2 = name then name2 else suffixStripLoop suffixSub k name2

/-- `EntityResolver.clean_name` from `entities.py`. -/
def cleanName (CO : CleanOracles) (raw : String) : String :=
  let name := pyStrip raw
  if name = "" then ""
  else
    let name := pyRstripPunct (pyStrip (CO.trailingSub name))
    let name := pyStrip (CO.descriptorSub name)
    let name := CO.articlesSub name
    let name := suffixStripLoop CO.suffixSub 3 name
    let name := pyStrip (collapseWs name)
    if pyIsUpper name || pyIsLower name then pyTitle name else name

/-- `re.match(r'^[A-Z0-9]{2,3}$', name)`. -/
def shortTokenShape (name : String) : Bool :=
  (name.length = 2 || name.length = 3) &&
    name.data.all (fun c => isAsciiUpperChar c || isAsciiDigit c)

/-- `_ENTITY_STOPWORDS` from `entities.py`. -/
def entityStopwords : List String :=
  ["a", "an", "the", "his", "her", "its", "that", "this", "them", "they",
   "it", "he", "she", "we", "us", "me", "my", "our", "your", "their",
   "who", "what", "which", "where", "when", "how", "there", "here",
   "all", "any", "new", "one", "two", "three", "four", "five", "six",
   "each", "than", "then", "also", "just", "like", "over", "only",
   "many", "some", "such", "more", "most", "very", "much", "well",
   "back", "into", "with", "from", "about", "will", "or", "if", "so",
   "no", "not", "but", "yet", "do", "can", "may", "shall",
   "be", "been", "being", "am", "is", "are", "was", "were",
   "have", "has", "had", "having", "get", "got", "did", "would",
   "could", "should", "must", "make", "made", "take", "took",
   "give", "gave", "keep", "kept", "let", "say", "said", "use",
   "run", "ran",
   "business", "company", "nation", "office", "help",
   "complete", "election", "investigation", "discrimination",
   "travel", "pharmaceutical", "operating", "major", "other",
   "former", "another", "several", "act", "law", "court", "state",
   "federal", "child", "children", "people", "person",
   "real estate", "seller",
   "notice", "report", "order", "plan", "claim", "relief", "charge",
   "grant", "rule", "damage", "risk", "abuse", "penalty", "complaint",
   "violation", "statute", "settlement", "enforcement", "authority",
   "oversight", "guidance", "protection", "measure", "effort",
   "failure", "impact", "safety", "access", "matter", "issue",
   "harm", "threat", "concern", "policy",
   "mortgage", "cryptocurrency", "e-cigarette", "companies",
   "funding", "centers", "patients", "owners"]

/-- `re.match(r'^\d+$', s)` on the stripped name. -/
def allDigits (s : String) : Bool := !s.data.isEmpty && s.data.all isAsciiDigit

/-- `is_valid_canonical_name` from `entities.py`. -/
def isValidCanonicalName (VO : ValidOracles) (name : String) : Bool :=
  if name = "" || name.length < 2 then false
  else if name.length < 3 && !shortTokenShape name then false
  else if pyStrip (pyLower name) ∈ entityStopwords then false
  else if pyStrip (pyLower name) ∈ VO.blockExact then false
  else if VO.blockPat name then false
  else if VO.garbagePat name then false
  else if allDigits (pyStrip name) then false
  else true

/-- The mutable state of an `EntityResolver`: the alias table (loaded
once), the growing canonical-name set and the append-only review queue. -/
structure ResolverState where
  aliases : List (String × String)
  canonicalNames : List String
  reviewQueue : List (String × String × ℚ)
deriving DecidableEq

/-- `set.add`: append if not already present. -/
def addCanonical (names : List String) (name : String) : List String :=
  if name ∈ names then names else names ++ [name]

/-- The candidate loop of `EntityResolver._fuzzy_match`: skip canonicals
shorter than 4 characters or with a length ratio outside `[0.4, 2.5]`,
keep the best strictly improving score. -/
def fuzzyMatchFold (fz : String → String → Nat) (cleaned : String) :
    List String → String × Nat → String × Nat
  | [], best => best
  | canonical :: rest, best =>
    if canonical.length < 4 then fuzzyMatchFold fz cleaned rest best
    else if (cleaned.length : ℚ) / (canonical.length : ℚ) < 4/10 ∨
        (cleaned.length : ℚ) / (canonical.length : ℚ) > 25/10 then
      fuzzyMatchFold fz cleaned rest best
    else if fz (pyLower cleaned) (pyLower canonical) > best.2 then
      fuzzyMatchFold fz cleaned rest (canonical, fz (pyLower cleaned) (pyLower canonical))
    else fuzzyMatchFold fz cleaned rest best

/-- `EntityResolver._fuzzy_match` from `entities.py`. -/
def fuzzyMatch (fz : String → String → Nat) (canonicalNames : List String)
    (cleaned : String) : String × Nat :=
  if canonicalNames = [] then ("", 0)
  else if cleaned.length < 4 then ("", 0)
  else fuzzyMatchFold fz cleaned canonicalNames ("", 0)

/-- `EntityResolver.resolve` from `entities.py`, with the state threaded
explicitly. -/
def resolve (CO : CleanOracles) (VO : ValidOracles) (fz : String → String → Nat)
    (st : ResolverState) (raw : String) : (String × ℚ) × ResolverState :=
  let cleaned := cleanName CO raw
  if cleaned = "" then (("", 0), st)
  else if !isValidCanonicalName VO cleaned then (("", 0), st)
  else
    match st.aliases.lookup (pyLower cleaned) with
    | some canonical => ((canonical, 1), st)
    | none =>
      match st.aliases.lookup (pyLower (pyStrip raw)) with
      | some canonical => ((canonical, 1), st)
      | none =>
        let bm := fuzzyMatch fz st.canonicalNames cleaned
        if bm.2 ≥ 85 then ((bm.1, (bm.2 : ℚ) / 100), st)
        else
          let st1 := if bm.2 ≥ 70 then
              { st with reviewQueue := st.reviewQueue ++ [(raw, bm.1, (bm.2 : ℚ) / 100)] }
            else st
          ((cleaned, 1/2),
            { st1 with canonicalNames := addCanonical st1.canonicalNames cleaned })

/-- C5: `resolve` is total (it is a Lean function) and follows the claimed
resolution order: invalid or empty cleaned names yield the `("", 0.0)`
sentinel with the state untouched; exact alias hits on the cleaned and
then the raw name return confidence 1.0 before any fuzzy matching; a
fuzzy score of at least 85 returns the best match at `score/100`; a score
in 70..84 enqueues a review entry and falls through; otherwise the
cleaned name becomes a new canonical entity at confidence 0.5. -/
theorem c5_resolve_resolution_order (CO : CleanOracles) (VO : ValidOracles)
    (fz : String → String → Nat) (st : ResolverState) (raw : String) :
    (cleanName CO raw = "" → resolve CO VO fz st raw = (("", 0), st)) ∧
    (isValidCanonicalName VO (cleanName CO raw) = false →
      resolve CO VO fz st raw = (("", 0), st)) ∧
    (∀ c, isValidCanonicalName VO (cleanName CO raw) = true →
      st.aliases.lookup (pyLower (cleanName CO raw)) = some c →
      resolve CO VO fz st raw = ((c, 1), st)) ∧
    (∀ c, isValidCanonicalName VO (cleanName CO raw) = true →
      st.aliases.lookup (pyLower (cleanName CO raw)) = none →
      st.aliases.lookup (pyLower (pyStrip raw)) = some c →
      resolve CO VO fz st raw = ((c, 1), st)) ∧
    (isValidCanonicalName VO (cleanName CO raw) = true →
      st.aliases.lookup (pyLower (cleanName CO raw)) = none →
      st.aliases.lookup (pyLower (pyStrip raw)) = none →
      (fuzzyMatch fz st.canonicalNames (cleanName CO raw)).2 ≥ 85 →
      resolve CO VO fz st raw =
        (((fuzzyMatch fz st.canonicalNames (cleanName CO raw)).1,
          ((fuzzyMatch fz st.canonicalNames (cleanName CO raw)).2 : ℚ) / 100), st)) ∧
    (isValidCanonicalName VO (cleanName CO raw) = true →
      st.aliases.lookup (pyLower (cleanName CO raw)) = none →
      st.aliases.lookup (pyLower (pyStrip raw)) = none →
      70 ≤ (fuzzyMatch fz st.canonicalNames (cleanName CO raw)).2 →
      (fuzzyMatch fz st.canonicalNames (cleanName CO raw)).2 < 85 →
      resolve CO VO fz st raw = ((cleanName CO raw, 1/2),
        { aliases := st.aliases
          canonicalNames := addCanonical st.canonicalNames (cleanName CO raw)
          reviewQueue := st.reviewQueue ++
            [(raw, (fuzzyMatch fz st.canonicalNames (cleanName CO raw)).1,
              ((fuzzyMatch fz st.canonicalNames (cleanName CO raw)).2 : ℚ) / 100)] })) ∧
    (isValidCanonicalName VO (cleanName CO raw) = true →
      st.aliases.lookup (pyLower (cleanName CO raw)) = none →
      st.aliases.lookup (pyLower (pyStrip raw)) = none →
      (fuzzyMatch fz st.canonicalNames (cleanName CO raw)).2 < 70 →
      resolve CO VO fz st raw = ((cleanName CO raw, 1/2),
        { aliases := st.aliases
          canonicalNames := addCanonical st.canonicalNames (cleanName CO raw)
          reviewQueue := st.reviewQueue })) := by
  have hvne : ∀ s, isValidCanonicalName VO s = true → s ≠ "" := by
    intro s hv hs
    rw [hs] at hv
    simp [isValidCanonicalName] at hv
  refine ⟨?_, ?_, ?_, ?_, ?_, ?_, ?_⟩
  · intro h
    unfold resolve
    rw [if_pos h]
  · intro h
    unfold resolve
    by_cases hc : cleanName CO raw = ""
    · rw [if_pos hc]
    · rw [if_neg hc, if_pos (by rw [h]; decide)]
  · intro c hv hl
    unfold resolve
    rw [if_neg (hvne _ hv), if_neg (by rw [hv]; decide), hl]
  · intro c hv hl1 hl2
    unfold resolve
    rw [if_neg (hvne _ hv), if_neg (by rw [hv]; decide), hl1, hl2]
  · intro hv hl1 hl2 hs
    unfold resolve
    rw [if_neg (hvne _ hv), if_neg (by rw [hv]; decide), hl1, hl2]
    simp only [ge_iff_le] at hs
    rw [if_pos hs]
  · intro hv hl1 hl2 h70 h85
    unfold resolve
    rw [if_neg (hvne _ hv), if_neg (by rw [hv]; decide), hl1, hl2]
    rw [if_neg (by omega), if_pos (by omega)]
  · intro hv hl1 hl2 h70
    unfold resolve
    rw [if_neg (hvne _ hv), if_neg (by rw [hv]; decide), hl1, hl2]
    rw [if_neg (by omega), if_neg (by omega)]

/-- Identity instantiation of the cleaning substitutions: none of the
patterns of `_TRAILING_FRAGMENTS`, `_LEADING_DESCRIPTORS`,
`_LEADING_ARTICLES` or `_LEGAL_SUFFIXES` matches the short acronym and
plain-name inputs these instantiations are applied to below, so on those
inputs each Python substitution is the identity. -/
def idCleanOracles : CleanOracles :=
  { trailingSub := fun s => s, descriptorSub := fun s => s,
    articlesSub := fun s => s, suffixSub := fun s => s }

/-- `_TRAILING_FRAGMENTS` matches the sentence fragment
`"claiming that the company"` at position 0 (branch
`(claiming|...)\s+(that|the)` followed by `.*$`), so `re.sub` deletes the
whole string; the other substitutions and inputs are untouched. -/
def fragCleanOracles : CleanOracles :=
  { trailingSub := fun s => if s = "claiming that the company" then "" else s,
    descriptorSub := fun s => s, articlesSub := fun s => s, suffixSub := fun s => s }

/-- An empty blocklist configuration with no garbage-pattern hits on the
inputs used below. -/
def emptyValidOracles : ValidOracles :=
  { blockExact := [], blockPat := fun _ => false, garbagePat := fun _ => false }

/-- A resolver state with no aliases, no canonical names and an empty
review queue. -/
def emptyResolverState : ResolverState :=
  { aliases := [], canonicalNames := [], reviewQueue := [] }

/-- C5 witness: `resolve("claiming that the company")` returns the
`("", 0.0)` sentinel, by the invalid-input arm of the main theorem. -/
theorem c5_resolve_resolution_order_witness :
    resolve fragCleanOracles emptyValidOracles (fun _ _ => 0) emptyResolverState
        "claiming that the company" = (("", 0), emptyResolverState) :=
  (c5_resolve_resolution_order fragCleanOracles emptyValidOracles (fun _ _ => 0)
      emptyResolverState "claiming that the company").1 (by decide)

/-- C8 counterexample: the short all-caps token `"CVS"` is not preserved by
`clean_name` — the `isupper()` branch title-cases it to `"Cvs"`. -/
theorem c8_counterexample :
    cleanName idCleanOracles "CVS" = "Cvs" ∧ cleanName idCleanOracles "CVS" ≠ "CVS" := by
  constructor
  · decide
  · decide

/-- C8 (amended): the uniform-case rule of `clean_name` title-cases
all-caps and all-lowercase input; a short all-caps token survives only
when each of its letters follows a non-letter (as in `"3M"`), while a
purely alphabetic acronym such as `"CVS"` is re-cased to `"Cvs"`; the
shape-based check `^[A-Z0-9]{2,3}$` lives in `is_valid_canonical_name`,
where it exempts 2-character tokens from the minimum-length rejection
instead of protecting their capitalization. -/
theorem c8_clean_name_case_rule :
    cleanName idCleanOracles "3M" = "3M" ∧
    cleanName idCleanOracles "CVS" = "Cvs" ∧
    cleanName idCleanOracles "exxonmobil" = "Exxonmobil" ∧
    isValidCanonicalName emptyValidOracles "3M" = true ∧
    isValidCanonicalName emptyValidOracles "CVS" = true := by
  refine ⟨by decide, by decide, by decide, by decide, by decide⟩

theorem fuzzyMatchFold_append (fz : String → String → Nat) (q : String)
    (l1 l2 : List String) (best : String × Nat) :
    fuzzyMatchFold fz q (l1 ++ l2) best =
      fuzzyMatchFold fz q l2 (fuzzyMatchFold fz q l1 best) := by
  induction l1 generalizing best with
  | nil => rfl
  | cons c rest ih =>
    simp only [List.cons_append, fuzzyMatchFold]
    split_ifs <;> apply ih

theorem fuzzyMatchFold_ge (fz : String → String → Nat) (q : String)
    (l : List String) (best : String × Nat) :
    best.2 ≤ (fuzzyMatchFold fz q l best).2 := by
  induction l generalizing best with
  | nil => exact le_rfl
  | cons c rest ih =>
    simp only [fuzzyMatchFold]
    split_ifs with h1 h2 h3
    · exact ih best
    · exact ih best
    · exact le_trans (le_of_lt h3) (ih (c, fz (pyLower q) (pyLower c)))
    · exact ih best

theorem fuzzyMatchFold_member_ge (fz : String → String → Nat) (q : String)
    {l : List String} {c : String} (hc : c ∈ l)
    (hlen : ¬c.length < 4)
    (hrat : ¬((q.length : ℚ) / (c.length : ℚ) < 4/10 ∨
      (q.length : ℚ) / (c.length : ℚ) > 25/10))
    (best : String × Nat) :
    fz (pyLower q) (pyLower c) ≤ (fuzzyMatchFold fz q l best).2 := by
  induction l generalizing best with
  | nil => cases hc
  | cons d rest ih =>
    rcases List.mem_cons.mp hc with heq | hmem
    · subst heq
      simp only [fuzzyMatchFold]
      rw [if_neg hlen, if_neg hrat]
      split_ifs with h3
      · exact fuzzyMatchFold_ge fz q rest (c, fz (pyLower q) (pyLower c))
      · exact le_trans (by omega) (fuzzyMatchFold_ge fz q rest best)
    · simp only [fuzzyMatchFold]
      split_ifs <;> exact ih hmem _

theorem fuzzyMatch_eq_fold (fz : String → String → Nat) (names : List String)
    (q : String) (hq : ¬q.length < 4) :
    fuzzyMatch fz names q = fuzzyMatchFold fz q names ("", 0) := by
  unfold fuzzyMatch
  by_cases h1 : names = []
  · rw [if_pos h1, h1]
    rfl
  · rw [if_neg h1, if_neg hq]

/-- C10: a valid cleaned name of length at least 4 with no alias hit and a
best fuzzy score below 70 is created as a new canonical entity at
confidence 0.5, and resolving the same raw name again immediately
fuzzy-matches the just-added canonical at score 100, returning the same
name with confidence 1.0.  `hzrefl` is the self-similarity of the
`token_sort_ratio` scorer (identical strings score 100). -/
theorem c10_new_entity_then_self_match (CO : CleanOracles) (VO : ValidOracles)
    (fz : String → String → Nat) (st : ResolverState) (raw : String)
    (hzrefl : ∀ s, fz s s = 100)
    (hvalid : isValidCanonicalName VO (cleanName CO raw) = true)
    (hlen : 4 ≤ (cleanName CO raw).length)
    (ha1 : st.aliases.lookup (pyLower (cleanName CO raw)) = none)
    (ha2 : st.aliases.lookup (pyLower (pyStrip raw)) = none)
    (hfz : (fuzzyMatch fz st.canonicalNames (cleanName CO raw)).2 < 70) :
    resolve CO VO fz st raw = ((cleanName CO raw, 1/2),
      { aliases := st.aliases
        canonicalNames := st.canonicalNames ++ [cleanName CO raw]
        reviewQueue := st.reviewQueue }) ∧
    resolve CO VO fz
        { aliases := st.aliases
          canonicalNames := st.canonicalNames ++ [cleanName CO raw]
          reviewQueue := st.reviewQueue } raw =
      ((cleanName CO raw, 1),
       { aliases := st.aliases
         canonicalNames := st.canonicalNames ++ [cleanName CO raw]
         reviewQueue := st.reviewQueue }) := by
  have hne : cleanName CO raw ≠ "" := by
    intro hs
    rw [hs] at hvalid
    simp [isValidCanonicalName] at hvalid
  have hlen4 : ¬(cleanName CO raw).length < 4 := by omega
  have hcast : ((cleanName CO raw).length : ℚ) ≠ 0 := by
    have hnz : (cleanName CO raw).length ≠ 0 := by omega
    exact_mod_cast hnz
  have hratself : ¬(((cleanName CO raw).length : ℚ) / ((cleanName CO raw).length : ℚ) < 4/10 ∨
      ((cleanName CO raw).length : ℚ) / ((cleanName CO raw).length : ℚ) > 25/10) := by
    rw [div_self hcast]
    norm_num
  have hnotmem : cleanName CO raw ∉ st.canonicalNames := by
    intro hmem
    have h100 := fuzzyMatchFold_member_ge fz (cleanName CO raw) hmem hlen4 hratself ("", 0)
    rw [hzrefl] at h100
    rw [fuzzyMatch_eq_fold fz st.canonicalNames (cleanName CO raw) hlen4] at hfz
    omega
  have hfold : (fuzzyMatchFold fz (cleanName CO raw) st.canonicalNames ("", 0)).2 < 70 := by
    rw [← fuzzyMatch_eq_fold fz st.canonicalNames (cleanName CO raw) hlen4]
    exact hfz
  have hfirst : resolve CO VO fz st raw = ((cleanName CO raw, 1/2),
      { aliases := st.aliases
        canonicalNames := st.canonicalNames ++ [cleanName CO raw]
        reviewQueue := st.reviewQueue }) := by
    unfold resolve
    rw [if_neg hne, if_neg (by rw [hvalid]; decide), ha1, ha2]
    rw [if_neg (by omega), if_neg (by omega)]
    simp [addCanonical, hnotmem]
  refine ⟨hfirst, ?_⟩
  have hsecondfz : fuzzyMatch fz (st.canonicalNames ++ [cleanName CO raw])
      (cleanName CO raw) = (cleanName CO raw, 100) := by
    rw [fuzzyMatch_eq_fold fz _ (cleanName CO raw) hlen4]
    rw [fuzzyMatchFold_append]
    have hstep : fuzzyMatchFold fz (cleanName CO raw) [cleanName CO raw]
        (fuzzyMatchFold fz (cleanName CO raw) st.canonicalNames ("", 0)) =
        (cleanName CO raw, 100) := by
      simp only [fuzzyMatchFold]
      rw [if_neg hlen4, if_neg hratself, hzrefl]
      rw [if_pos (by omega)]
    exact hstep
  unfold resolve
  simp only
  rw [if_neg hne, if_neg (by rw [hvalid]; decide), ha1, ha2]
  simp only
  rw [hsecondfz]
  rw [if_pos (by norm_num)]
  norm_num

/-- C10 witness: a fresh name against an empty canonical set, resolved
twice, with an equality scorer (which is reflexive at 100 like
`token_sort_ratio`). -/
theorem c10_new_entity_then_self_match_witness :
    resolve idCleanOracles emptyValidOracles (fun a b => if a = b then 100 else 0)
        emptyResolverState "Acme Widgets" =
      (("Acme Widgets", 1/2),
       { aliases := [], canonicalNames := ["Acme Widgets"], reviewQueue := [] }) ∧
    resolve idCleanOracles emptyValidOracles (fun a b => if a = b then 100 else 0)
        { aliases := [], canonicalNames := ["Acme Widgets"], reviewQueue := [] }
        "Acme Widgets" =
      (("Acme Widgets", 1),
       { aliases := [], canonicalNames := ["Acme Widgets"], reviewQueue := [] }) := by
  have h := c10_new_entity_then_self_match idCleanOracles emptyValidOracles
      (fun a b => if a = b then 100 else 0) emptyResolverState "Acme Widgets"
      (fun s => by simp) (by decide) (by decide) (by decide) (by decide) (by decide)
  exact h

/-! ## `src/validation/dedup.py` — pairwise duplicate detection

`fuzz.token_sort_ratio` again enters as the scorer parameter.  Dates are
day counts (`.days` of a `timedelta` is the integer difference), amounts
are `Option ℚ` (`Decimal | None`).  The Python truthiness test
`if a.total_amount and b.total_amount` treats both `None` and
`Decimal("0")` as absent; the embedding mirrors that exactly. -/

structure DedupCandidate where
  action_id : String
  state : String
  date_announced : Int
  defendants : List String
  total_amount : Option ℚ
  headline : String
  is_multistate : Bool
deriving DecidableEq

structure DedupMatch where
  action_id_a : String
  action_id_b : String
  match_type : String
  confidence : ℚ
  reason : String
deriving DecidableEq

/-- `DATE_WINDOW_DAYS`. -/
def dateWindowDays : Int := 30

/-- `MULTISTATE_DATE_WINDOW_DAYS`. -/
def multistateDateWindowDays : Int := 730

/-- `_defendant_similarity`: best pairwise score across both lists. -/
def defendantSimilarity (fz : String → String → Nat) (defsA defsB : List String) : Nat :=
  defsA.foldl (fun best a =>
    defsB.foldl (fun best2 b =>
      if fz (pyLower a) (pyLower b) > best2 then fz (pyLower a) (pyLower b) else best2)
      best) 0

/-- `_amounts_similar`: within 10% of each other. -/
def amountsSimilar (a b : ℚ) : Bool :=
  if a = 0 ∨ b = 0 then a = b
  else min a b / max a b ≥ 9/10

/-- The date window used for a pair: widened when both candidates are
multistate-flagged and from different states. -/
def pairDateWindow (a b : DedupCandidate) : Int :=
  if a.is_multistate = true ∧ b.is_multistate = true ∧ a.state ≠ b.state then
    multistateDateWindowDays
  else dateWindowDays

/-- The accumulated (pre-clamp) confidence of `_compare_pair`: defendant
signal, date proximity, amount agreement (only when both amounts are
present and nonzero — Python truthiness), and headline similarity above
70. -/
def pairConfidence (fz : String → String → Nat) (a b : DedupCandidate) : ℚ :=
  (4/10) * ((defendantSimilarity fz a.defendants b.defendants : ℚ) / 100) +
  (2/10) * max 0 (1 - (|a.date_announced - b.date_announced| : ℚ) / (pairDateWindow a b : ℚ)) +
  (match a.total_amount, b.total_amount with
   | some x, some y =>
     if x ≠ 0 ∧ y ≠ 0 then
       if x = y then 3/10
       else if amountsSimilar x y then 15/100
       else 0
     else 0
   | _, _ => 0) +
  (if fz (pyLower a.headline) (pyLower b.headline) > 70 then
    (1/10) * ((fz (pyLower a.headline) (pyLower b.headline) : ℚ) / 100)
  else 0)

/-- Python `round(q, 3)`. -/
def roundTo3 (q : ℚ) : ℚ := ((pyRoundHalfEven (q * 1000) : ℤ) : ℚ) / 1000

/-- The `reason` string assembled by `_compare_pair`. -/
def pairReason (fz : String → String → Nat) (a b : DedupCandidate) : String :=
  let reasons := ["defendants=" ++ toString (defendantSimilarity fz a.defendants b.defendants)
    ++ "%"]
  let reasons := reasons ++
    ["date_diff=" ++ toString |a.date_announced - b.date_announced| ++ "d"]
  let reasons := reasons ++
    (match a.total_amount, b.total_amount with
     | some x, some y =>
       if x ≠ 0 ∧ y ≠ 0 then
         if x = y then ["exact_amount_match"]
         else if amountsSimilar x y then ["similar_amount"]
         else []
       else []
     | _, _ => [])
  let reasons := reasons ++
    (if fz (pyLower a.headline) (pyLower b.headline) > 70 then
      ["headline=" ++ toString (fz (pyLower a.headline) (pyLower b.headline)) ++ "%"]
    else [])
  String.intercalate "; " reasons

/-- `_compare_pair` from `dedup.py`. -/
def comparePair (fz : String → String → Nat) (a b : DedupCandidate) : Option DedupMatch :=
  if |a.date_announced - b.date_announced| > pairDateWindow a b then none
  else if a.defendants = [] ∨ b.defendants = [] then none
  else if defendantSimilarity fz a.defendants b.defendants < 80 then none
  else
    if min 1 (pairConfidence fz a b) < 1/2 then none
    else some
      { action_id_a := a.action_id
        action_id_b := b.action_id
        match_type := if a.state ≠ b.state then "multistate" else "temporal"
        confidence := roundTo3 (min 1 (pairConfidence fz a b))
        reason := pairReason fz a b }

theorem natMaxFold_ge_init {β : Type} (g : β → Nat) (l : List β) (init : Nat) :
    init ≤ l.foldl (fun best x => if g x > best then g x else best) init := by
  induction l generalizing init with
  | nil => exact le_rfl
  | cons c rest ih =>
    simp only [List.foldl_cons]
    exact le_trans (by split_ifs <;> omega) (ih (if g c > init then g c else init))

theorem natMaxFold_ge_mem {β : Type} (g : β → Nat) {l : List β} {x : β} (hx : x ∈ l)
    (init : Nat) :
    g x ≤ l.foldl (fun best y => if g y > best then g y else best) init := by
  induction l generalizing init with
  | nil => cases hx
  | cons c rest ih =>
    simp only [List.foldl_cons]
    rcases List.mem_cons.mp hx with heq | hmem
    · subst heq
      refine le_trans ?_ (natMaxFold_ge_init g rest _)
      split_ifs <;> omega
    · exact ih hmem _

theorem foldl_ge_init_of_step {β : Type} (F : Nat → β → Nat) (hF : ∀ b x, b ≤ F b x)
    (l : List β) (init : Nat) : init ≤ l.foldl F init := by
  induction l generalizing init with
  | nil => exact le_rfl
  | cons c rest ih => exact le_trans (hF init c) (ih (F init c))

theorem defendantSimilarity_ge (fz : String → String → Nat) {A B : List String}
    {da db : String} (ha : da ∈ A) (hb : db ∈ B) :
    fz (pyLower da) (pyLower db) ≤ defendantSimilarity fz A B := by
  unfold defendantSimilarity
  have haux : ∀ (l : List String) (init : Nat), da ∈ l →
      fz (pyLower da) (pyLower db) ≤ l.foldl (fun best a =>
        B.foldl (fun best2 b =>
          if fz (pyLower a) (pyLower b) > best2 then fz (pyLower a) (pyLower b) else best2)
          best) init := by
    intro l
    induction l with
    | nil => intro init h; cases h
    | cons c rest ih =>
      intro init h
      rcases List.mem_cons.mp h with heq | hmem
      · subst heq
        simp only [List.foldl_cons]
        refine le_trans (natMaxFold_ge_mem (fun b => fz (pyLower da) (pyLower b)) hb init) ?_
        exact foldl_ge_init_of_step _
          (fun b x => natMaxFold_ge_init (fun y => fz (pyLower x) (pyLower y)) B b) rest _
      · simp only [List.foldl_cons]
        exact ih _ hmem
  exact haux A 0 ha

theorem roundTo3_mono {q r : ℚ} (h : q ≤ r) : roundTo3 q ≤ roundTo3 r := by
  unfold roundTo3
  have hf : pyRoundHalfEven (q * 1000) ≤ pyRoundHalfEven (r * 1000) :=
    pyRoundHalfEven_mono (by linarith)
  have hc : ((pyRoundHalfEven (q * 1000) : ℤ) : ℚ) ≤ ((pyRoundHalfEven (r * 1000) : ℤ) : ℚ) := by
    exact_mod_cast hf
  linarith

theorem roundTo3_half : roundTo3 (1/2) = 1/2 := by
  have hfl : ⌊(500 : ℚ)⌋ = 500 := by
    rw [show (500 : ℚ) = ((500 : ℤ) : ℚ) by norm_num]
    exact Int.floor_intCast 500
  norm_num [roundTo3, pyRoundHalfEven, hfl]

/-- C6 (amended): `_compare_pair` rejects exactly when the pair is outside
the applicable date window, a defendant list is empty, the best defendant
similarity is below 80, or the clamped confidence is below 0.5; surviving
different-state pairs are classified cross-jurisdiction (`"multistate"`)
and same-state pairs `"temporal"`, with the rounded clamped confidence;
and two different-state multistate-flagged candidates sharing a defendant
and a nonzero equal amount within the 2-year window match as
cross-jurisdiction with confidence at least 0.5.  The amount bonus applies
only when both amounts are present and nonzero (Python truthiness). -/
theorem c6_compare_pair_characterization (fz : String → String → Nat)
    (a b : DedupCandidate) :
    (comparePair fz a b = none ↔
      (|a.date_announced - b.date_announced| > pairDateWindow a b ∨
        a.defendants = [] ∨ b.defendants = [] ∨
        defendantSimilarity fz a.defendants b.defendants < 80 ∨
        min 1 (pairConfidence fz a b) < 1/2)) ∧
    (∀ m, comparePair fz a b = some m →
      m.match_type = (if a.state ≠ b.state then "multistate" else "temporal") ∧
      m.confidence = roundTo3 (min 1 (pairConfidence fz a b))) ∧
    (∀ d x, (∀ s, fz s s = 100) →
      a.is_multistate = true → b.is_multistate = true → a.state ≠ b.state →
      |a.date_announced - b.date_announced| ≤ 730 →
      d ∈ a.defendants → d ∈ b.defendants →
      a.total_amount = some x → b.total_amount = some x → x ≠ 0 →
      ∃ m, comparePair fz a b = some m ∧ m.match_type = "multistate" ∧
        1/2 ≤ m.confidence) := by
  refine ⟨?_, ?_, ?_⟩
  · unfold comparePair
    split_ifs with h1 h2 h3 h4
    · exact iff_of_true rfl (Or.inl h1)
    · exact iff_of_true rfl (Or.inr (h2.imp id Or.inl))
    · exact iff_of_true rfl (Or.inr (Or.inr (Or.inr (Or.inl h3))))
    · exact iff_of_true rfl (Or.inr (Or.inr (Or.inr (Or.inr h4))))
    · refine iff_of_false (by simp) ?_
      rintro (h | h | h | h | h)
      exacts [h1 h, h2 (Or.inl h), h2 (Or.inr h), h3 h, h4 h]
  · intro m hm
    unfold comparePair at hm
    by_cases h1 : |a.date_announced - b.date_announced| > pairDateWindow a b
    · rw [if_pos h1] at hm
      exact Option.noConfusion hm
    rw [if_neg h1] at hm
    by_cases h2 : a.defendants = [] ∨ b.defendants = []
    · rw [if_pos h2] at hm
      exact Option.noConfusion hm
    rw [if_neg h2] at hm
    by_cases h3 : defendantSimilarity fz a.defendants b.defendants < 80
    · rw [if_pos h3] at hm
      exact Option.noConfusion hm
    rw [if_neg h3] at hm
    by_cases h4 : min 1 (pairConfidence fz a b) < 1/2
    · rw [if_pos h4] at hm
      exact Option.noConfusion hm
    rw [if_neg h4] at hm
    simp only [Option.some.injEq] at hm
    subst hm
    exact ⟨rfl, rfl⟩
  · intro d x hrefl hma hmb hst hgap hda hdb hax hbx hx0
    have hw : pairDateWindow a b = 730 := by
      unfold pairDateWindow
      rw [if_pos ⟨hma, hmb, hst⟩]
      rfl
    have hds : 100 ≤ defendantSimilarity fz a.defendants b.defendants := by
      have hge := defendantSimilarity_ge fz hda hdb
      rw [hrefl] at hge
      exact hge
    have hdsQ : (1 : ℚ) ≤ (defendantSimilarity fz a.defendants b.defendants : ℚ) / 100 := by
      have hc : (100 : ℚ) ≤ (defendantSimilarity fz a.defendants b.defendants : ℚ) := by
        exact_mod_cast hds
      linarith
    have hconf : 7/10 ≤ pairConfidence fz a b := by
      unfold pairConfidence
      rw [hax, hbx]
      have hdate : (0 : ℚ) ≤ max 0
          (1 - (|a.date_announced - b.date_announced| : ℚ) / (pairDateWindow a b : ℚ)) :=
        le_max_left _ _
      have hhl : (0 : ℚ) ≤ (if fz (pyLower a.headline) (pyLower b.headline) > 70 then
          (1/10) * ((fz (pyLower a.headline) (pyLower b.headline) : ℚ) / 100) else 0) := by
        split_ifs
        · positivity
        · exact le_rfl
      simp only
      rw [if_pos ⟨hx0, hx0⟩]
      simp only [eq_self_iff_true, if_true]
      linarith
    have hclamp : 1/2 ≤ min 1 (pairConfidence fz a b) :=
      le_min (by norm_num) (by linarith)
    have hnotlt : ¬(min 1 (pairConfidence fz a b) < 1/2) := not_lt.mpr hclamp
    have hsome : comparePair fz a b = some
        { action_id_a := a.action_id
          action_id_b := b.action_id
          match_type := if a.state ≠ b.state then "multistate" else "temporal"
          confidence := roundTo3 (min 1 (pairConfidence fz a b))
          reason := pairReason fz a b } := by
      unfold comparePair
      rw [if_neg (by rw [hw]; exact not_lt.mpr hgap)]
      rw [if_neg (by
        rintro (h | h)
        · exact List.ne_nil_of_mem hda h
        · exact List.ne_nil_of_mem hdb h)]
      rw [if_neg (by omega), if_neg hnotlt]
    refine ⟨_, hsome, ?_, ?_⟩
    · simp only [if_pos hst]
    · have hr : roundTo3 (1/2) ≤ roundTo3 (min 1 (pairConfidence fz a b)) :=
        roundTo3_mono hclamp
      rw [roundTo3_half] at hr
      exact hr

/-- An equality scorer: 100 on identical strings, 0 otherwise.  It agrees
with the reflexivity of `token_sort_ratio` (identical strings score 100)
and is used to instantiate the scorer parameter on concrete inputs. -/
def fzEq : String → String → Nat := fun a b => if a = b then 100 else 0

def c6wA : DedupCandidate :=
  { action_id := "ca-1", state := "CA", date_announced := 100,
    defendants := ["Acme"], total_amount := some 5000000,
    headline := "CA secures settlement from Acme", is_multistate := true }

def c6wB : DedupCandidate :=
  { action_id := "ny-1", state := "NY", date_announced := 400,
    defendants := ["Acme"], total_amount := some 5000000,
    headline := "NY reaches agreement with Acme", is_multistate := true }

/-- C6 witness: two multistate-flagged candidates from different states
with the same defendant and equal nonzero amounts 300 days apart link as
cross-jurisdiction with confidence at least 0.5. -/
theorem c6_compare_pair_characterization_witness :
    ∃ m, comparePair fzEq c6wA c6wB = some m ∧ m.match_type = "multistate" ∧
      1/2 ≤ m.confidence :=
  (c6_compare_pair_characterization fzEq c6wA c6wB).2.2 "Acme" 5000000
    (fun s => by simp [fzEq]) rfl rfl (by decide) (by norm_num [c6wA, c6wB])
    (by simp [c6wA]) (by simp [c6wB]) rfl rfl (by norm_num)

def c6cexA : DedupCandidate :=
  { action_id := "ca-0", state := "CA", date_announced := 0,
    defendants := ["Acme"], total_amount := some 0,
    headline := "a", is_multistate := true }

def c6cexB : DedupCandidate :=
  { action_id := "ny-0", state := "NY", date_announced := 730,
    defendants := ["Acme"], total_amount := some 0,
    headline := "b", is_multistate := true }

/-- Modelled from the claim wording: the pair confidence with the amount
bonus granted whenever both amounts are present and exactly equal (or
within 10%), without the Python truthiness that treats `Decimal("0")` as
absent. -/
def claimConfidenceC6 (fz : String → String → Nat) (a b : DedupCandidate) : ℚ :=
  (4/10) * ((defendantSimilarity fz a.defendants b.defendants : ℚ) / 100) +
  (2/10) * max 0 (1 - (|a.date_announced - b.date_announced| : ℚ) / (pairDateWindow a b : ℚ)) +
  (match a.total_amount, b.total_amount with
   | some x, some y =>
     if x = y then 3/10
     else if amountsSimilar x y then 15/100
     else 0
   | _, _ => 0) +
  (if fz (pyLower a.headline) (pyLower b.headline) > 70 then
    (1/10) * ((fz (pyLower a.headline) (pyLower b.headline) : ℚ) / 100)
  else 0)

theorem c6cex_window : pairDateWindow c6cexA c6cexB = 730 := by
  unfold pairDateWindow
  rw [if_pos ⟨rfl, rfl, by decide⟩]
  rfl

theorem c6cex_gap : |c6cexA.date_announced - c6cexB.date_announced| = 730 := by
  norm_num [c6cexA, c6cexB]

theorem c6cex_ds : defendantSimilarity fzEq c6cexA.defendants c6cexB.defendants = 100 := by
  decide

theorem c6cex_gapQ :
    |(c6cexA.date_announced : ℚ) - (c6cexB.date_announced : ℚ)| = 730 := by
  norm_num [c6cexA, c6cexB]

theorem c6cex_hs : fzEq (pyLower c6cexA.headline) (pyLower c6cexB.headline) = 0 := by
  decide

theorem c6cex_code_conf : pairConfidence fzEq c6cexA c6cexB = 2/5 := by
  unfold pairConfidence
  rw [c6cex_ds, c6cex_gapQ, c6cex_window, c6cex_hs]
  rw [show c6cexA.total_amount = some 0 from rfl, show c6cexB.total_amount = some 0 from rfl]
  simp only [ne_eq, not_true_eq_false, false_and, if_false, gt_iff_lt]
  rw [if_neg (by norm_num)]
  push_cast
  rw [show (1 : ℚ) - 730 / 730 = 0 by norm_num, max_self]
  norm_num

theorem c6cex_claim_conf : claimConfidenceC6 fzEq c6cexA c6cexB = 7/10 := by
  unfold claimConfidenceC6
  rw [c6cex_ds, c6cex_gapQ, c6cex_window, c6cex_hs]
  rw [show c6cexA.total_amount = some 0 from rfl, show c6cexB.total_amount = some 0 from rfl]
  simp only [eq_self_iff_true, if_true, gt_iff_lt]
  rw [if_neg (by norm_num)]
  push_cast
  rw [show (1 : ℚ) - 730 / 730 = 0 by norm_num, max_self]
  norm_num

/-- C6 counterexample: for a pair with equal *zero* amounts, the claimed
confidence formula (amount bonus for exact equality of present amounts)
reaches 0.7, so the claim predicts a cross-jurisdiction match — but the
code treats `Decimal("0")` as absent (Python truthiness), computes 0.4,
and returns no match. -/
theorem c6_counterexample :
    comparePair fzEq c6cexA c6cexB = none ∧
    ¬(|c6cexA.date_announced - c6cexB.date_announced| > pairDateWindow c6cexA c6cexB) ∧
    c6cexA.defendants ≠ [] ∧ c6cexB.defendants ≠ [] ∧
    ¬(defendantSimilarity fzEq c6cexA.defendants c6cexB.defendants < 80) ∧
    c6cexA.state ≠ c6cexB.state ∧
    1/2 ≤ min 1 (claimConfidenceC6 fzEq c6cexA c6cexB) := by
  refine ⟨?_, ?_, by decide, by decide, ?_, by decide, ?_⟩
  · unfold comparePair
    rw [if_neg (by rw [c6cex_gap, c6cex_window]; decide)]
    rw [if_neg (by decide : ¬(c6cexA.defendants = [] ∨ c6cexB.defendants = []))]
    rw [if_neg (by rw [c6cex_ds]; decide)]
    rw [if_pos]
    rw [c6cex_code_conf]
    rw [min_eq_right (by norm_num : (2 : ℚ)/5 ≤ 1)]
    norm_num
  · rw [c6cex_gap, c6cex_window]
    decide
  · rw [c6cex_ds]
    decide
  · rw [c6cex_claim_conf]
    rw [min_eq_right (by norm_num : (7 : ℚ)/10 ≤ 1)]
    norm_num

/-! ## `src/validation/dedup.py` — multistate clustering

The union-find of `cluster_multistate_matches` (a `parent` dict with a
path-halving `find` while-loop and root-linking `union`) is embedded with
the dict as an association list and the while-loop with an explicit fuel;
after `k` unions every parent chain has length at most `k`, so the fuel
`len(ms_matches) + 1` used below never runs out (the correctness theorems
track this bound as the `Bounded` invariant).  `uuid4` cluster ids come
from an explicit supply. -/

/-- The `parent` dict of the union-find. -/
def PMap : Type := List (String × String)

/-- `parent.get(x, x)`. -/
def pget (m : PMap) (x : String) : String := (List.lookup x m).getD x

/-- `parent[x] = v` (a later entry shadows earlier ones on lookup). -/
def pset (m : PMap) (x v : String) : PMap := (x, v) :: m

theorem pget_pset (m : PMap) (x v y : String) :
    pget (pset m x v) y = if y = x then v else pget m y := by
  unfold pget pset
  by_cases h : y = x
  · simp [List.lookup, h]
  · simp only [List.lookup]
    rw [if_neg h]
    have hb : (y == x) = false := by
      simp [h]
    simp [hb]

/-- The `find` while-loop with path halving
(`parent[x] = parent.get(parent[x], parent[x]); x = parent[x]`),
returning the root and the compressed map. -/
def findAux (fuel : Nat) (m : PMap) (x : String) : String × PMap :=
  match fuel with
  | 0 => (x, m)
  | fuel + 1 =>
    if pget m x = x then (x, m)
    else findAux fuel (pset m x (pget m (pget m x))) (pget m (pget m x))

/-- `union(a, b)`: link the root of `a` under the root of `b` (the two
`find` calls also compress the map). -/
def unionUF (fuel : Nat) (m : PMap) (a b : String) : PMap :=
  if (findAux fuel m a).1 = (findAux fuel (findAux fuel m a).2 b).1 then
    (findAux fuel (findAux fuel m a).2 b).2
  else
    pset (findAux fuel (findAux fuel m a).2 b).2 (findAux fuel m a).1
      (findAux fuel (findAux fuel m a).2 b).1

/-- `k`-fold parent iteration. -/
def iterp (m : PMap) : Nat → String → String
  | 0, x => x
  | k + 1, x => iterp m k (pget m x)

def IsRoot (m : PMap) (x : String) : Prop := pget m x = x

/-- `x` reaches the root `r`. -/
def Roots (m : PMap) (x r : String) : Prop := ∃ k, iterp m k x = r ∧ IsRoot m r

/-- Every node reaches a root within `n` steps. -/
def Bounded (m : PMap) (n : Nat) : Prop :=
  ∀ x, ∃ r k, k ≤ n ∧ iterp m k x = r ∧ IsRoot m r

theorem iterp_fixed {m : PMap} {x : String} (h : IsRoot m x) (k : Nat) :
    iterp m k x = x := by
  induction k with
  | zero => rfl
  | succ k ih =>
    have : iterp m (k + 1) x = iterp m k (pget m x) := rfl
    rw [this, h, ih]

theorem iterp_add (m : PMap) (j k : Nat) (x : String) :
    iterp m (j + k) x = iterp m k (iterp m j x) := by
  induction j generalizing x with
  | zero => simp [iterp]
  | succ j ih =>
    have h1 : iterp m (j + 1 + k) x = iterp m (j + k) (pget m x) := by
      rw [show j + 1 + k = (j + k) + 1 from by omega]
      rfl
    rw [h1, ih]
    rfl

/-- The root of a node is unique. -/
theorem roots_unique {m : PMap} {x r s : String} (hr : Roots m x r) (hs : Roots m x s) :
    r = s := by
  obtain ⟨j, hj, hjr⟩ := hr
  obtain ⟨k, hk, hkr⟩ := hs
  rcases le_total j k with h | h
  · obtain ⟨d, rfl⟩ := Nat.exists_eq_add_of_le h
    rw [iterp_add, hj, iterp_fixed hjr] at hk
    exact hk
  · obtain ⟨d, rfl⟩ := Nat.exists_eq_add_of_le h
    rw [iterp_add, hk, iterp_fixed hkr] at hj
    exact hj.symm

/-- Path-halving compression preserves every chain (with no more steps):
re-pointing `x` to its grandparent keeps all roots. -/
theorem compress_preserves {m : PMap} {x : String} (hx : pget m x ≠ x) :
    ∀ k y r, iterp m k y = r → IsRoot m r →
      ∃ j ≤ k, iterp (pset m x (pget m (pget m x))) j y = r ∧
        IsRoot (pset m x (pget m (pget m x))) r := by
  intro k
  induction k using Nat.strong_induction_on with
  | _ k ih =>
    intro y r hit hr
    have hrx : r ≠ x := fun h => hx (h ▸ hr)
    have hr' : IsRoot (pset m x (pget m (pget m x))) r := by
      unfold IsRoot
      rw [pget_pset, if_neg hrx]
      exact hr
    match k with
    | 0 =>
      exact ⟨0, le_rfl, hit, hr'⟩
    | k + 1 =>
      by_cases hy : y = x
      · subst hy
        have hstep : iterp m (k + 1) y = iterp m k (pget m y) := rfl
        rw [hstep] at hit
        match k with
        | 0 =>
          have hp : pget m y = r := hit
          have hg : pget m (pget m y) = r := by rw [hp]; exact hr
          refine ⟨1, by omega, ?_, hr'⟩
          have : iterp (pset m y (pget m (pget m y))) 1 y =
              pget (pset m y (pget m (pget m y))) y := rfl
          rw [this, pget_pset, if_pos rfl, hg]
        | k + 1 =>
          have hit2 : iterp m k (pget m (pget m y)) = r := by
            have : iterp m (k + 1) (pget m y) = iterp m k (pget m (pget m y)) := rfl
            rw [this] at hit
            exact hit
          obtain ⟨j, hj, hjit, hjr⟩ := ih k (by omega) (pget m (pget m y)) r hit2 hr
          refine ⟨j + 1, by omega, ?_, hjr⟩
          have : iterp (pset m y (pget m (pget m y))) (j + 1) y =
              iterp (pset m y (pget m (pget m y))) j
                (pget (pset m y (pget m (pget m y))) y) := rfl
          rw [this, pget_pset, if_pos rfl]
          exact hjit
      · have hstep : iterp m (k + 1) y = iterp m k (pget m y) := rfl
        rw [hstep] at hit
        obtain ⟨j, hj, hjit, hjr⟩ := ih k (by omega) (pget m y) r hit hr
        refine ⟨j + 1, by omega, ?_, hjr⟩
        have : iterp (pset m x (pget m (pget m x))) (j + 1) y =
            iterp (pset m x (pget m (pget m x))) j
              (pget (pset m x (pget m (pget m x))) y) := rfl
        rw [this, pget_pset, if_neg hy]
        exact hjit

/-- `findAux` returns the root of its argument and preserves every chain
of the map (with no more steps). -/
theorem findAux_spec : ∀ (fuel : Nat) (m : PMap) (x r : String) (k : Nat),
    iterp m k x = r → IsRoot m r → k ≤ fuel →
    (findAux fuel m x).1 = r ∧
    (∀ y s j, iterp m j y = s → IsRoot m s →
      ∃ j2 ≤ j, iterp (findAux fuel m x).2 j2 y = s ∧ IsRoot (findAux fuel m x).2 s) := by
  intro fuel
  induction fuel with
  | zero =>
    intro m x r k hit hr hk
    have hk0 : k = 0 := by omega
    subst hk0
    exact ⟨hit, fun y s j h1 h2 => ⟨j, le_rfl, h1, h2⟩⟩
  | succ fuel ih =>
    intro m x r k hit hr hk
    by_cases hroot : pget m x = x
    · have hxr : x = r := by
        have : iterp m k x = x := iterp_fixed hroot k
        rw [this] at hit
        exact hit
      unfold findAux
      rw [if_pos hroot]
      exact ⟨hxr, fun y s j h1 h2 => ⟨j, le_rfl, h1, h2⟩⟩
    · have hk1 : 1 ≤ k := by
        rcases Nat.eq_zero_or_pos k with h0 | h1
        · subst h0
          have hxr : x = r := hit
          subst hxr
          exact absurd hr hroot
        · exact h1
      -- a chain from the grandparent g to r, of length ≤ k - 1
      have hg : ∃ kg ≤ k - 1, iterp m kg (pget m (pget m x)) = r := by
        match k, hk1 with
        | 1, _ =>
          have hp : pget m x = r := hit
          refine ⟨0, by omega, ?_⟩
          show pget m (pget m x) = r
          rw [hp]
          exact hr
        | k + 2, _ =>
          have h2 : iterp m (k + 1) (pget m x) = r := hit
          have h3 : iterp m k (pget m (pget m x)) = r := h2
          exact ⟨k, by omega, h3⟩
      obtain ⟨kg, hkg, hgit⟩ := hg
      obtain ⟨j2, hj2, hit2, hr2⟩ := compress_preserves hroot kg _ r hgit hr
      have hrec := ih (pset m x (pget m (pget m x))) (pget m (pget m x)) r j2 hit2 hr2
        (by omega)
      unfold findAux
      rw [if_neg hroot]
      refine ⟨hrec.1, ?_⟩
      intro y s j h1 h2
      obtain ⟨ja, hja, hita, hra⟩ := compress_preserves hroot j y s h1 h2
      obtain ⟨jb, hjb, hitb, hrb⟩ := hrec.2 y s ja hita hra
      exact ⟨jb, by omega, hitb, hrb⟩

def SameRoot (m : PMap) (x y : String) : Prop := ∃ r, Roots m x r ∧ Roots m y r

theorem sameRoot_iff_roots_eq {m : PMap} {x y rx ry : String}
    (hx : Roots m x rx) (hy : Roots m y ry) : SameRoot m x y ↔ rx = ry := by
  constructor
  · rintro ⟨r, h1, h2⟩
    rw [roots_unique hx h1, roots_unique hy h2]
  · intro h
    exact ⟨rx, hx, h ▸ hy⟩

theorem roots_of_bounded {m : PMap} {n : Nat} (hB : Bounded m n) (x : String) :
    ∃ r, Roots m x r := by
  obtain ⟨r, k, _, h1, h2⟩ := hB x
  exact ⟨r, k, h1, h2⟩

/-- Linking the root `ra` under the distinct root `rb` redirects exactly
the trees rooted at `ra`. -/
theorem link_preserves {m : PMap} {ra rb : String} (hra : IsRoot m ra)
    (hrb : IsRoot m rb) (hne : ra ≠ rb) :
    ∀ k y r, iterp m k y = r → IsRoot m r →
      ∃ j ≤ k + 1, iterp (pset m ra rb) j y = (if r = ra then rb else r) ∧
        IsRoot (pset m ra rb) (if r = ra then rb else r) := by
  have hrootrb : IsRoot (pset m ra rb) rb := by
    unfold IsRoot
    rw [pget_pset, if_neg (Ne.symm hne)]
    exact hrb
  intro k
  induction k with
  | zero =>
    intro y r hit hr
    have hyr : y = r := hit
    subst hyr
    by_cases hya : y = ra
    · subst hya
      refine ⟨1, by omega, ?_, ?_⟩
      · have : iterp (pset m y rb) 1 y = iterp (pset m y rb) 0 (pget (pset m y rb) y) := rfl
        rw [this, pget_pset, if_pos rfl]
        rw [if_pos rfl]
        rfl
      · rw [if_pos rfl]
        exact hrootrb
    · refine ⟨0, by omega, ?_, ?_⟩
      · rw [if_neg hya]
        rfl
      · rw [if_neg hya]
        unfold IsRoot
        rw [pget_pset, if_neg hya]
        exact hr
  | succ k ih =>
    intro y r hit hr
    by_cases hya : y = ra
    · subst hya
      have hyr : y = r := by
        have h1 : iterp m (k + 1) y = iterp m k (pget m y) := rfl
        rw [h1, hra, iterp_fixed hra] at hit
        exact hit
      subst hyr
      refine ⟨1, by omega, ?_, ?_⟩
      · have : iterp (pset m y rb) 1 y = iterp (pset m y rb) 0 (pget (pset m y rb) y) := rfl
        rw [this, pget_pset, if_pos rfl]
        rw [if_pos rfl]
        rfl
      · rw [if_pos rfl]
        exact hrootrb
    · have h1 : iterp m (k + 1) y = iterp m k (pget m y) := rfl
      rw [h1] at hit
      obtain ⟨j, hj, hjit, hjr⟩ := ih (pget m y) r hit hr
      refine ⟨j + 1, by omega, ?_, hjr⟩
      have h2 : iterp (pset m ra rb) (j + 1) y =
          iterp (pset m ra rb) j (pget (pset m ra rb) y) := rfl
      rw [h2, pget_pset, if_neg hya]
      exact hjit

theorem bounded_mono {m : PMap} {n n2 : Nat} (h : Bounded m n) (hle : n ≤ n2) :
    Bounded m n2 := by
  intro x
  obtain ⟨r, k, hk, h1, h2⟩ := h x
  exact ⟨r, k, by omega, h1, h2⟩

theorem sameRoot_symm {m : PMap} {x y : String} (h : SameRoot m x y) : SameRoot m y x := by
  obtain ⟨r, h1, h2⟩ := h
  exact ⟨r, h2, h1⟩

theorem sameRoot_trans {m : PMap} {x y z : String} (h1 : SameRoot m x y)
    (h2 : SameRoot m y z) : SameRoot m x z := by
  obtain ⟨r, ha, hb⟩ := h1
  obtain ⟨s, hc, hd⟩ := h2
  exact ⟨r, ha, roots_unique hc hb ▸ hd⟩

theorem sameRoot_congr {m m2 : PMap} (h : ∀ y s, Roots m2 y s ↔ Roots m y s)
    (x y : String) : SameRoot m2 x y ↔ SameRoot m x y := by
  unfold SameRoot
  constructor
  · rintro ⟨r, h1, h2⟩
    exact ⟨r, (h _ _).mp h1, (h _ _).mp h2⟩
  · rintro ⟨r, h1, h2⟩
    exact ⟨r, (h _ _).mpr h1, (h _ _).mpr h2⟩

/-- Packaged `findAux` correctness under the `Bounded` invariant. -/
theorem findAux_roots_iff {fuel : Nat} {m : PMap} {n : Nat} (x : String)
    (hB : Bounded m n) (hf : n ≤ fuel) :
    Roots m x (findAux fuel m x).1 ∧
    Bounded (findAux fuel m x).2 n ∧
    (∀ y s, Roots (findAux fuel m x).2 y s ↔ Roots m y s) := by
  obtain ⟨r, k, hk, h1, h2⟩ := hB x
  obtain ⟨hfst, hpres⟩ := findAux_spec fuel m x r k h1 h2 (by omega)
  have hiff : ∀ y s, Roots (findAux fuel m x).2 y s ↔ Roots m y s := by
    intro y s
    constructor
    · intro hys
      obtain ⟨r2, k2, hk2, h12, h22⟩ := hB y
      obtain ⟨j2, hj2, hit2, hr2⟩ := hpres y r2 k2 h12 h22
      have h3 : Roots (findAux fuel m x).2 y r2 := ⟨j2, hit2, hr2⟩
      rw [roots_unique hys h3]
      exact ⟨k2, h12, h22⟩
    · rintro ⟨j, hj1, hj2⟩
      obtain ⟨j2, hj2le, hit2, hr2⟩ := hpres y s j hj1 hj2
      exact ⟨j2, hit2, hr2⟩
  refine ⟨?_, ?_, hiff⟩
  · rw [hfst]
    exact ⟨k, h1, h2⟩
  · intro y
    obtain ⟨r2, k2, hk2, h12, h22⟩ := hB y
    obtain ⟨j2, hj2, hit2, hr2⟩ := hpres y r2 k2 h12 h22
    exact ⟨r2, j2, by omega, hit2, hr2⟩

/-- `union` grows the chain bound by one and joins exactly the two classes
of its arguments. -/
theorem unionUF_spec {fuel : Nat} {m : PMap} {n : Nat} (a b : String)
    (hB : Bounded m n) (hf : n ≤ fuel) :
    Bounded (unionUF fuel m a b) (n + 1) ∧
    (∀ x y, SameRoot (unionUF fuel m a b) x y ↔
      (SameRoot m x y ∨ (SameRoot m x a ∧ SameRoot m y b) ∨
        (SameRoot m x b ∧ SameRoot m y a))) := by
  obtain ⟨hRa, hB1, hiff1⟩ := findAux_roots_iff a hB hf
  obtain ⟨hRb1, hB2, hiff2⟩ := findAux_roots_iff b hB1 hf
  set F1 := findAux fuel m a with hF1
  set F2 := findAux fuel F1.2 b with hF2
  have hRb : Roots m b F2.1 := (hiff1 b F2.1).mp hRb1
  have hiff21 : ∀ y s, Roots F2.2 y s ↔ Roots m y s := by
    intro y s
    rw [hiff2 y s, hiff1 y s]
  have hsame2 : ∀ x y, SameRoot F2.2 x y ↔ SameRoot m x y := sameRoot_congr hiff21
  have hB2' : Bounded F2.2 n := hB2
  unfold unionUF
  rw [← hF1, ← hF2]
  by_cases heq : F1.1 = F2.1
  · rw [if_pos heq]
    have hab : SameRoot m a b := ⟨F2.1, heq ▸ hRa, hRb⟩
    constructor
    · exact bounded_mono hB2' (by omega)
    · intro x y
      rw [hsame2 x y]
      constructor
      · exact Or.inl
      · rintro (h | ⟨h1, h2⟩ | ⟨h1, h2⟩)
        · exact h
        · exact sameRoot_trans (sameRoot_trans h1 hab) (sameRoot_symm h2)
        · exact sameRoot_trans (sameRoot_trans h1 (sameRoot_symm hab)) (sameRoot_symm h2)
  · rw [if_neg heq]
    -- link F1.1 under F2.1 in the doubly compressed map F2.2
    have hRa2 : Roots F2.2 a F1.1 := (hiff21 a F1.1).mpr hRa
    have hRb2 : Roots F2.2 b F2.1 := (hiff21 b F2.1).mpr hRb
    have hrootA : IsRoot F2.2 F1.1 := hRa2.choose_spec.2
    have hrootB : IsRoot F2.2 F2.1 := hRb2.choose_spec.2
    have hlink := link_preserves hrootA hrootB heq
    have hphi : ∀ y r, Roots F2.2 y r →
        Roots (pset F2.2 F1.1 F2.1) y (if r = F1.1 then F2.1 else r) := by
      rintro y r ⟨k, h1, h2⟩
      obtain ⟨j, hj, hit, hr⟩ := hlink k y r h1 h2
      exact ⟨j, hit, hr⟩
    have hchar : ∀ y s, Roots (pset F2.2 F1.1 F2.1) y s ↔
        ∃ r, Roots F2.2 y r ∧ s = (if r = F1.1 then F2.1 else r) := by
      intro y s
      constructor
      · intro hys
        obtain ⟨r, hr⟩ := roots_of_bounded hB2' y
        have h3 := hphi y r hr
        exact ⟨r, hr, roots_unique hys h3⟩
      · rintro ⟨r, hr, rfl⟩
        exact hphi y r hr
    constructor
    · intro y
      obtain ⟨r, k, hk, h1, h2⟩ := hB2' y
      obtain ⟨j, hj, hit, hr⟩ := hlink k y r h1 h2
      exact ⟨_, j, by omega, hit, hr⟩
    · intro x y
      obtain ⟨rx, hrx⟩ := roots_of_bounded hB2' x
      obtain ⟨ry, hry⟩ := roots_of_bounded hB2' y
      have hrxm : Roots m x rx := (hiff21 x rx).mp hrx
      have hrym : Roots m y ry := (hiff21 y ry).mp hry
      have hx3 : Roots (pset F2.2 F1.1 F2.1) x (if rx = F1.1 then F2.1 else rx) :=
        hphi x rx hrx
      have hy3 : Roots (pset F2.2 F1.1 F2.1) y (if ry = F1.1 then F2.1 else ry) :=
        hphi y ry hry
      rw [sameRoot_iff_roots_eq hx3 hy3]
      rw [sameRoot_iff_roots_eq hrxm hrym, sameRoot_iff_roots_eq hrxm hRa,
        sameRoot_iff_roots_eq hrym hRb, sameRoot_iff_roots_eq hrxm hRb,
        sameRoot_iff_roots_eq hrym hRa]
      by_cases h1 : rx = F1.1 <;> by_cases h2 : ry = F1.1 <;>
        simp [h1, h2, heq] <;> tauto

/-- The sequence of `union` calls over the multistate match edges. -/
def processMatches (fuel : Nat) (edges : List (String × String)) (m : PMap) : PMap :=
  edges.foldl (fun acc e => unionUF fuel acc e.1 e.2) m

theorem sameRoot_equivalence {m : PMap} {n : Nat} (hB : Bounded m n) :
    Equivalence (SameRoot m) where
  refl x := by
    obtain ⟨r, hr⟩ := roots_of_bounded hB x
    exact ⟨r, hr, hr⟩
  symm := sameRoot_symm
  trans := sameRoot_trans

theorem eqvGen_le_of_imp {r s : String → String → Prop}
    (h : ∀ u v, r u v → Relation.EqvGen s u v) :
    ∀ x y, Relation.EqvGen r x y → Relation.EqvGen s x y := by
  intro x y hxy
  induction hxy with
  | rel u v huv => exact h u v huv
  | refl u => exact Relation.EqvGen.refl u
  | symm u v _ ih => exact Relation.EqvGen.symm u v ih
  | trans u v w _ _ ih1 ih2 => exact Relation.EqvGen.trans u v w ih1 ih2

theorem eqvGen_congr {r s : String → String → Prop} (h : ∀ x y, r x y ↔ s x y) :
    ∀ x y, Relation.EqvGen r x y ↔ Relation.EqvGen s x y := by
  intro x y
  constructor
  · exact eqvGen_le_of_imp (fun u v huv => Relation.EqvGen.rel u v ((h u v).mp huv)) x y
  · exact eqvGen_le_of_imp (fun u v huv => Relation.EqvGen.rel u v ((h u v).mpr huv)) x y

/-- Joining one pair `(a, b)` to an equivalence `T` closes to the same
relation as adding the raw pair. -/
theorem eqvGen_join_pair {T : String → String → Prop} (hT : Equivalence T)
    (a b : String) (e : String → String → Prop) :
    ∀ x y,
      Relation.EqvGen (fun u v =>
        (T u v ∨ (T u a ∧ T v b) ∨ (T u b ∧ T v a)) ∨ e u v) x y ↔
      Relation.EqvGen (fun u v => T u v ∨ ((u = a ∧ v = b) ∨ e u v)) x y := by
  intro x y
  constructor
  · refine eqvGen_le_of_imp ?_ x y
    rintro u v ((h | ⟨h1, h2⟩ | ⟨h1, h2⟩) | h)
    · exact Relation.EqvGen.rel u v (Or.inl h)
    · refine Relation.EqvGen.trans u a v (Relation.EqvGen.rel u a (Or.inl h1)) ?_
      refine Relation.EqvGen.trans a b v
        (Relation.EqvGen.rel a b (Or.inr (Or.inl ⟨rfl, rfl⟩))) ?_
      exact Relation.EqvGen.symm v b (Relation.EqvGen.rel v b (Or.inl h2))
    · refine Relation.EqvGen.trans u b v (Relation.EqvGen.rel u b (Or.inl h1)) ?_
      refine Relation.EqvGen.trans b a v
        (Relation.EqvGen.symm a b (Relation.EqvGen.rel a b (Or.inr (Or.inl ⟨rfl, rfl⟩)))) ?_
      exact Relation.EqvGen.symm v a (Relation.EqvGen.rel v a (Or.inl h2))
    · exact Relation.EqvGen.rel u v (Or.inr (Or.inr h))
  · refine eqvGen_le_of_imp ?_ x y
    rintro u v (h | ⟨rfl, rfl⟩ | h)
    · exact Relation.EqvGen.rel u v (Or.inl (Or.inl h))
    · exact Relation.EqvGen.rel u v (Or.inl (Or.inr (Or.inl ⟨hT.refl u, hT.refl v⟩)))
    · exact Relation.EqvGen.rel u v (Or.inr h)

/-- Folding `union` over an edge list computes the equivalence generated by
the starting same-root relation joined with the edges. -/
theorem process_spec : ∀ (edges : List (String × String)) (m : PMap) (n fuel : Nat),
    Bounded m n → n + edges.length ≤ fuel →
    Bounded (processMatches fuel edges m) (n + edges.length) ∧
    (∀ x y, SameRoot (processMatches fuel edges m) x y ↔
      Relation.EqvGen (fun u v => SameRoot m u v ∨ (u, v) ∈ edges) x y) := by
  intro edges
  induction edges with
  | nil =>
    intro m n fuel hB hf
    refine ⟨by simpa using hB, ?_⟩
    intro x y
    have hequiv : Equivalence (SameRoot m) := sameRoot_equivalence hB
    have h1 : ∀ u v, (SameRoot m u v ∨ (u, v) ∈ ([] : List (String × String))) ↔
        SameRoot m u v := by
      intro u v
      simp
    rw [eqvGen_congr h1, hequiv.eqvGen_iff]
    rfl
  | cons e rest ih =>
    intro m n fuel hB hf
    have hnf : n ≤ fuel := by
      simp only [List.length_cons] at hf
      omega
    obtain ⟨hB1, hS1⟩ := unionUF_spec e.1 e.2 hB hnf
    have hrec := ih (unionUF fuel m e.1 e.2) (n + 1) fuel hB1 (by
      simp only [List.length_cons] at hf
      omega)
    have hfold : processMatches fuel (e :: rest) m =
        processMatches fuel rest (unionUF fuel m e.1 e.2) := rfl
    rw [hfold]
    refine ⟨by
      have := hrec.1
      have hlen : n + 1 + rest.length = n + (e :: rest).length := by
        simp [List.length_cons]
        omega
      rw [hlen] at this
      exact this, ?_⟩
    intro x y
    rw [hrec.2 x y]
    rw [eqvGen_congr (fun u v => or_congr_left (hS1 u v)) x y]
    have hequiv : Equivalence (SameRoot m) := sameRoot_equivalence hB
    rw [eqvGen_join_pair hequiv e.1 e.2 (fun u v => (u, v) ∈ rest) x y]
    refine eqvGen_congr (fun u v => ?_) x y
    constructor
    · rintro (h | ⟨h1, h2⟩ | h)
      · exact Or.inl h
      · subst h1
        subst h2
        exact Or.inr (by simp)
      · exact Or.inr (by simp [h])
    · rintro (h | h)
      · exact Or.inl h
      · rcases List.mem_cons.mp h with heq | hmem
        · exact Or.inr (Or.inl ⟨congrArg Prod.fst heq, congrArg Prod.snd heq⟩)
        · exact Or.inr (Or.inr hmem)

theorem bounded_nil : Bounded ([] : PMap) 0 := by
  intro x
  exact ⟨x, 0, le_rfl, rfl, rfl⟩

theorem iterp_nil (k : Nat) (x : String) : iterp ([] : PMap) k x = x := by
  induction k with
  | zero => rfl
  | succ k ih => exact ih

theorem sameRoot_nil (x y : String) : SameRoot ([] : PMap) x y ↔ x = y := by
  constructor
  · rintro ⟨r, ⟨j, hj1, _⟩, ⟨k, hk1, _⟩⟩
    rw [iterp_nil j x] at hj1
    rw [iterp_nil k y] at hk1
    rw [hj1, hk1]
  · rintro rfl
    exact ⟨x, ⟨0, rfl, rfl⟩, ⟨0, rfl, rfl⟩⟩

/-- The parent map built from scratch realizes exactly the equivalence
closure of the edge list. -/
theorem process_empty_spec (edges : List (String × String)) (fuel : Nat)
    (hf : edges.length ≤ fuel) :
    Bounded (processMatches fuel edges []) edges.length ∧
    (∀ x y, SameRoot (processMatches fuel edges []) x y ↔
      Relation.EqvGen (fun u v => (u, v) ∈ edges) x y) := by
  obtain ⟨hB, hS⟩ := process_spec edges [] 0 fuel bounded_nil (by omega)
  refine ⟨by simpa using hB, ?_⟩
  intro x y
  rw [hS x y]
  constructor
  · refine eqvGen_le_of_imp ?_ x y
    rintro u v (h | h)
    · rw [(sameRoot_nil u v).mp h]
      exact Relation.EqvGen.refl v
    · exact Relation.EqvGen.rel u v h
  · refine eqvGen_le_of_imp ?_ x y
    rintro u v h
    exact Relation.EqvGen.rel u v (Or.inr h)

/-! ## `src/validation/dedup.py` — `cluster_multistate_matches`

The union-find phase is `processMatches` above.  The grouping loop calls
`find` again for every id, and those calls keep compressing the parent
map, so the map is threaded through the loop.  Python-set iteration order
is unspecified; the id set is modelled as a duplicate-free list, and the
theorems only state order-insensitive properties.  `str(uuid.uuid4())`
enters as an explicit id supply, and the `ValueError` that `min([])`
would raise (a grouped id with no candidate record) is modelled as
`none`. -/

/-- Python string comparison: code-point lexicographic. -/
def charListLt : List Char → List Char → Bool
  | [], [] => false
  | [], _ :: _ => true
  | _ :: _, [] => false
  | a :: as, b :: bs =>
    if a.toNat < b.toNat then true
    else if b.toNat < a.toNat then false
    else charListLt as bs

def pyStrLe (a b : String) : Bool := a == b || charListLt a.data b.data

def insertSorted (x : String) : List String → List String
  | [] => [x]
  | y :: rest => if pyStrLe x y then x :: y :: rest else y :: insertSorted x rest

/-- `sorted(l)` on strings (insertion sort; the theorems only use that the
result is a permutation of the input). -/
def sortStrings : List String → List String
  | [] => []
  | x :: rest => insertSorted x (sortStrings rest)

/-- Duplicate elimination, modelling a Python `set` as a duplicate-free
list (set iteration order is unspecified, so any order will do). -/
def pyDedup : List String → List String
  | [] => []
  | x :: rest => if x ∈ rest then pyDedup rest else x :: pyDedup rest

structure MultistateCluster where
  cluster_id : String
  action_ids : List String
  states : List String
  lead_state : Option String
  name : String
  total_settlement : Option ℚ
deriving DecidableEq

/-- `ms_matches = [m for m in matches if m.match_type == "multistate"]`,
kept as the id pairs the union loop consumes. -/
def msEdges (ms : List DedupMatch) : List (String × String) :=
  (ms.filter (fun m => m.match_type = "multistate")).map
    (fun m => (m.action_id_a, m.action_id_b))

/-- `all_ids = {m.action_id_a for m in ms_matches} | {m.action_id_b ...}`. -/
def allIdsOf (edges : List (String × String)) : List String :=
  pyDedup (edges.map Prod.fst ++ edges.map Prod.snd)

/-- `cand_by_id = {c.action_id: c for c in candidates}` (later entries
overwrite earlier ones) combined with the `aid in cand_by_id` test. -/
def candById (cands : List DedupCandidate) (aid : String) : Option DedupCandidate :=
  cands.foldl (fun acc c => if c.action_id = aid then some c else acc) none

/-- `groups[root].append(aid)` on a `defaultdict(list)` kept in key
insertion order. -/
def addToGroup : List (String × List String) → String → String → List (String × List String)
  | [], r, aid => [(r, [aid])]
  | (k, g) :: rest, r, aid =>
    if k = r then (k, g ++ [aid]) :: rest
    else (k, g) :: addToGroup rest r aid

/-- `for aid in all_ids: groups[find(aid)].append(aid)`; every `find`
compresses the parent map, which is threaded to the next iteration. -/
def groupLoop (fuel : Nat) : List String → PMap → List (String × List String) →
    List (String × List String)
  | [], _, gs => gs
  | aid :: rest, m, gs =>
    groupLoop fuel rest (findAux fuel m aid).2 (addToGroup gs (findAux fuel m aid).1 aid)

/-- `[c.total_amount for c in cands if c.total_amount]` — Python
truthiness drops `None` and `Decimal("0")` alike. -/
def truthyAmounts (cands : List DedupCandidate) : List ℚ :=
  cands.filterMap (fun c =>
    match c.total_amount with
    | some x => if x = 0 then none else some x
    | none => none)

/-- `max(amounts) if amounts else None`. -/
def maxQ : List ℚ → Option ℚ
  | [] => none
  | x :: rest =>
    match maxQ rest with
    | none => some x
    | some y => some (max x y)

/-- The fold behind `min(cands, key=lambda c: c.date_announced)` (Python
`min` keeps the first minimum). -/
def minFold (c : DedupCandidate) (rest : List DedupCandidate) : DedupCandidate :=
  rest.foldl (fun best d => if d.date_announced < best.date_announced then d else best) c

/-- `min(cands, key=lambda c: c.date_announced)`; `none` is the
`ValueError` on an empty sequence. -/
def minByDate : List DedupCandidate → Option DedupCandidate
  | [] => none
  | c :: rest => some (minFold c rest)

/-- The body of the per-group `for group_ids in groups.values()` loop:
member lookup, states, canonical total, earliest announcer, name. -/
def buildCluster (cid : String) (cands : List DedupCandidate)
    (groupIds : List String) : Option MultistateCluster :=
  let cs := groupIds.filterMap (fun aid => candById cands aid)
  match minByDate cs with
  | none => none
  | some earliest =>
    let nameParts := if earliest.defendants ≠ [] then earliest.defendants.take 2 else []
    some { cluster_id := cid
           action_ids := cs.map (fun c => c.action_id)
           states := sortStrings (pyDedup (cs.map (fun c => c.state)))
           lead_state := some earliest.state
           name := if nameParts ≠ [] then String.intercalate ", " nameParts
                   else pyTake earliest.headline 80
           total_settlement := maxQ (truthyAmounts cs) }

/-- The cluster-building loop: groups with fewer than two members are
skipped, each built cluster consumes one fresh uuid. -/
def buildClustersLoop (newIds : Nat → String) (cands : List DedupCandidate) :
    Nat → List (List String) → Option (List MultistateCluster)
  | _, [] => some []
  | i, g :: rest =>
    if g.length < 2 then buildClustersLoop newIds cands i rest
    else
      match buildCluster (newIds i) cands g, buildClustersLoop newIds cands (i + 1) rest with
      | some k, some ks => some (k :: ks)
      | _, _ => none

/-- `cluster_multistate_matches` from `dedup.py`. -/
def clusterMultistateMatches (newIds : Nat → String) (cands : List DedupCandidate)
    (ms : List DedupMatch) : Option (List MultistateCluster) :=
  let edges := msEdges ms
  if edges = [] then some []
  else
    buildClustersLoop newIds cands 0
      ((groupLoop edges.length (allIdsOf edges) (processMatches edges.length edges []) []).map
        Prod.snd)

/-- The per-cluster metadata properties: the member records exist among
the candidates, `states` is the set of member states without duplicates,
`total_settlement` is the largest nonzero member amount (and `none` when
every member amount is absent or zero), and `lead_state` is the state of
an earliest-announcing member. -/
def ClusterMeta (cands : List DedupCandidate) (k : MultistateCluster) : Prop :=
  ∃ cs : List DedupCandidate,
    cs.map (fun c => c.action_id) = k.action_ids ∧
    (∀ c ∈ cs, candById cands c.action_id = some c) ∧
    (∀ s, s ∈ k.states ↔ ∃ c ∈ cs, c.state = s) ∧
    k.states.Nodup ∧
    (∀ q, k.total_settlement = some q →
      q ≠ 0 ∧ (∃ c ∈ cs, c.total_amount = some q) ∧
      ∀ c ∈ cs, ∀ x, c.total_amount = some x → x ≠ 0 → x ≤ q) ∧
    (k.total_settlement = none ↔ ∀ c ∈ cs, ∀ x, c.total_amount = some x → x = 0) ∧
    (∃ c ∈ cs, k.lead_state = some c.state ∧
      ∀ d ∈ cs, c.date_announced ≤ d.date_announced)

/-- The spec's words for the canonical total: the maximum of the members'
amounts, with no nonzero qualification. -/
def claimTotalSettlement (cs : List DedupCandidate) : Option ℚ :=
  maxQ (cs.filterMap (fun c => c.total_amount))

theorem pyDedup_mem (a : String) : ∀ l : List String, a ∈ pyDedup l ↔ a ∈ l := by
  intro l
  induction l with
  | nil => simp [pyDedup]
  | cons x rest ih =>
    by_cases hx : x ∈ rest
    · simp only [pyDedup, if_pos hx]
      rw [ih, List.mem_cons]
      constructor
      · exact Or.inr
      · rintro (rfl | h)
        · exact hx
        · exact h
    · simp only [pyDedup, if_neg hx]
      rw [List.mem_cons, List.mem_cons, ih]

theorem pyDedup_nodup : ∀ l : List String, (pyDedup l).Nodup := by
  intro l
  induction l with
  | nil => simp [pyDedup]
  | cons x rest ih =>
    by_cases hx : x ∈ rest
    · simpa only [pyDedup, if_pos hx] using ih
    · simp only [pyDedup, if_neg hx]
      refine List.nodup_cons.mpr ⟨?_, ih⟩
      rw [pyDedup_mem]
      exact hx

theorem insertSorted_perm (x : String) :
    ∀ l : List String, (insertSorted x l).Perm (x :: l) := by
  intro l
  induction l with
  | nil => exact List.Perm.refl _
  | cons y rest ih =>
    by_cases h : pyStrLe x y
    · simp only [insertSorted, if_pos h]
      exact List.Perm.refl _
    · simp only [insertSorted, if_neg h]
      exact (List.Perm.cons y ih).trans (List.Perm.swap x y rest)

theorem sortStrings_perm : ∀ l : List String, (sortStrings l).Perm l := by
  intro l
  induction l with
  | nil => exact List.Perm.refl _
  | cons x rest ih =>
    exact (insertSorted_perm x (sortStrings rest)).trans (List.Perm.cons x ih)

theorem candById_fold_id (aid : String) :
    ∀ (cands : List DedupCandidate) (acc : Option DedupCandidate),
    (∀ c, acc = some c → c.action_id = aid) →
    ∀ c, cands.foldl (fun acc c => if c.action_id = aid then some c else acc) acc = some c →
      c.action_id = aid := by
  intro cands
  induction cands with
  | nil =>
    intro acc hacc c h
    exact hacc c h
  | cons d rest ih =>
    intro acc hacc c h
    rw [List.foldl_cons] at h
    refine ih _ ?_ c h
    intro c2 hc2
    by_cases hd : d.action_id = aid
    · rw [if_pos hd] at hc2
      cases hc2
      exact hd
    · rw [if_neg hd] at hc2
      exact hacc c2 hc2

theorem candById_action_id {cands : List DedupCandidate} {aid : String}
    {c : DedupCandidate} (h : candById cands aid = some c) : c.action_id = aid :=
  candById_fold_id aid cands none (fun c2 hc2 => by cases hc2) c h

theorem filterMap_candById_ids (cands : List DedupCandidate) :
    ∀ g : List String,
    (∀ aid ∈ g, (candById cands aid).isSome = true) →
    (g.filterMap (fun aid => candById cands aid)).map (fun c => c.action_id) = g := by
  intro g
  induction g with
  | nil => intro _; rfl
  | cons aid rest ih =>
    intro h
    obtain ⟨c, hc⟩ := Option.isSome_iff_exists.mp (h aid (List.mem_cons_self aid rest))
    rw [List.filterMap_cons, hc, List.map_cons,
      candById_action_id hc, ih (fun a ha => h a (List.mem_cons_of_mem aid ha))]

theorem maxQ_eq_none : ∀ l : List ℚ, maxQ l = none ↔ l = [] := by
  intro l
  cases l with
  | nil => simp [maxQ]
  | cons x rest =>
    simp only [maxQ]
    cases maxQ rest <;> simp

theorem maxQ_spec : ∀ (l : List ℚ) (q : ℚ), maxQ l = some q → q ∈ l ∧ ∀ r ∈ l, r ≤ q := by
  intro l
  induction l with
  | nil =>
    intro q h
    exact absurd h (by simp [maxQ])
  | cons x rest ih =>
    intro q h
    simp only [maxQ] at h
    cases hr : maxQ rest with
    | none =>
      rw [hr] at h
      cases h
      have hnil : rest = [] := (maxQ_eq_none rest).mp hr
      subst hnil
      refine ⟨List.mem_cons_self _ _, ?_⟩
      intro r hrmem
      rcases List.mem_cons.mp hrmem with rfl | hmem
      · exact le_rfl
      · exact absurd hmem (List.not_mem_nil r)
    | some y =>
      rw [hr] at h
      cases h
      obtain ⟨hymem, hybound⟩ := ih y hr
      constructor
      · rcases max_choice x y with hm | hm
        · rw [hm]
          exact List.mem_cons_self _ _
        · rw [hm]
          exact List.mem_cons_of_mem x hymem
      · intro r hrmem
        rcases List.mem_cons.mp hrmem with rfl | hmem
        · exact le_max_left r y
        · exact le_trans (hybound r hmem) (le_max_right x y)

theorem truthyAmounts_mem (cs : List DedupCandidate) (q : ℚ) :
    q ∈ truthyAmounts cs ↔ ∃ c ∈ cs, c.total_amount = some q ∧ q ≠ 0 := by
  rw [truthyAmounts, List.mem_filterMap]
  constructor
  · rintro ⟨c, hc, hfc⟩
    refine ⟨c, hc, ?_⟩
    cases hta : c.total_amount with
    | none =>
      rw [hta] at hfc
      cases hfc
    | some x =>
      rw [hta] at hfc
      by_cases hx : x = 0
      · simp only [if_pos hx] at hfc
        cases hfc
      · simp only [if_neg hx] at hfc
        cases hfc
        exact ⟨rfl, hx⟩
  · rintro ⟨c, hc, hta, hq⟩
    refine ⟨c, hc, ?_⟩
    simp only [hta, if_neg hq]

theorem truthyAmounts_eq_nil (cs : List DedupCandidate) :
    truthyAmounts cs = [] ↔ ∀ c ∈ cs, ∀ x, c.total_amount = some x → x = 0 := by
  rw [truthyAmounts, List.filterMap_eq_nil_iff]
  constructor
  · intro h c hc x hx
    have h2 := h c hc
    rw [hx] at h2
    by_contra hx0
    simp only [if_neg hx0] at h2
    cases h2
  · intro h c hc
    cases hta : c.total_amount with
    | none => simp [hta]
    | some x =>
      simp only [hta, if_pos (h c hc x hta)]

theorem minFold_spec : ∀ (rest : List DedupCandidate) (c : DedupCandidate),
    minFold c rest ∈ c :: rest ∧
    (minFold c rest).date_announced ≤ c.date_announced ∧
    ∀ d ∈ rest, (minFold c rest).date_announced ≤ d.date_announced := by
  intro rest
  induction rest with
  | nil =>
    intro c
    exact ⟨List.mem_cons_self _ _, le_rfl, fun d hd => absurd hd (List.not_mem_nil d)⟩
  | cons d rest ih =>
    intro c
    have hstep : minFold c (d :: rest) =
        minFold (if d.date_announced < c.date_announced then d else c) rest := by
      simp only [minFold, List.foldl_cons]
    obtain ⟨hmem, hle, hall⟩ := ih (if d.date_announced < c.date_announced then d else c)
    by_cases hd : d.date_announced < c.date_announced
    · have hc2 : (if d.date_announced < c.date_announced then d else c) = d := if_pos hd
      rw [hc2] at hstep hmem hle hall
      refine ⟨?_, ?_, ?_⟩
      · rw [hstep]
        rcases List.mem_cons.mp hmem with heq | hmemr
        · rw [heq]
          exact List.mem_cons_of_mem c (List.mem_cons_self d rest)
        · exact List.mem_cons_of_mem c (List.mem_cons_of_mem d hmemr)
      · rw [hstep]
        exact le_trans hle (le_of_lt hd)
      · intro e he
        rw [hstep]
        rcases List.mem_cons.mp he with rfl | hemem
        · exact hle
        · exact hall e hemem
    · have hc2 : (if d.date_announced < c.date_announced then d else c) = c := if_neg hd
      rw [hc2] at hstep hmem hle hall
      refine ⟨?_, ?_, ?_⟩
      · rw [hstep]
        rcases List.mem_cons.mp hmem with heq | hmemr
        · rw [heq]
          exact List.mem_cons_self _ _
        · exact List.mem_cons_of_mem c (List.mem_cons_of_mem d hmemr)
      · rw [hstep]
        exact hle
      · intro e he
        rw [hstep]
        rcases List.mem_cons.mp he with rfl | hemem
        · exact le_trans hle (not_lt.mp hd)
        · exact hall e hemem

theorem minByDate_spec {cs : List DedupCandidate} {e : DedupCandidate}
    (h : minByDate cs = some e) :
    e ∈ cs ∧ ∀ d ∈ cs, e.date_announced ≤ d.date_announced := by
  cases cs with
  | nil => cases h
  | cons c rest =>
    simp only [minByDate] at h
    cases h
    obtain ⟨hmem, hle, hall⟩ := minFold_spec rest c
    refine ⟨hmem, ?_⟩
    intro d hd
    rcases List.mem_cons.mp hd with rfl | hdm
    · exact hle
    · exact hall d hdm

theorem minByDate_eq_none : ∀ cs : List DedupCandidate, minByDate cs = none ↔ cs = [] := by
  intro cs
  cases cs with
  | nil => simp [minByDate]
  | cons c rest => simp [minByDate]

theorem addToGroup_inv {R : String → String → Prop} :
    ∀ (gs : List (String × List String)) (r aid : String),
    (∀ p ∈ gs, ∀ x ∈ p.2, R x p.1) → R aid r →
    ∀ p ∈ addToGroup gs r aid, ∀ x ∈ p.2, R x p.1 := by
  intro gs
  induction gs with
  | nil =>
    intro r aid _ hr p hp x hx
    rcases List.mem_cons.mp hp with rfl | hemp
    · rcases List.mem_cons.mp hx with rfl | hx0
      · exact hr
      · exact absurd hx0 (List.not_mem_nil x)
    · exact absurd hemp (List.not_mem_nil p)
  | cons q rest ih =>
    intro r aid hinv hr p hp x hx
    obtain ⟨k, g⟩ := q
    simp only [addToGroup] at hp
    by_cases hk : k = r
    · rw [if_pos hk] at hp
      rcases List.mem_cons.mp hp with rfl | hrest
      · rcases List.mem_append.mp hx with hxg | hxa
        · exact hinv (k, g) (List.mem_cons_self _ _) x hxg
        · rcases List.mem_cons.mp hxa with rfl | hx0
          · rw [hk]
            exact hr
          · exact absurd hx0 (List.not_mem_nil x)
      · exact hinv p (List.mem_cons_of_mem _ hrest) x hx
    · rw [if_neg hk] at hp
      rcases List.mem_cons.mp hp with rfl | hrest
      · exact hinv (k, g) (List.mem_cons_self _ _) x hx
      · exact ih r aid (fun p2 hp2 => hinv p2 (List.mem_cons_of_mem _ hp2)) hr p hrest x hx

theorem addToGroup_keys :
    ∀ (gs : List (String × List String)) (r aid : String),
    (addToGroup gs r aid).map Prod.fst = gs.map Prod.fst ∨
    (addToGroup gs r aid).map Prod.fst = gs.map Prod.fst ++ [r] ∧ r ∉ gs.map Prod.fst := by
  intro gs
  induction gs with
  | nil =>
    intro r aid
    right
    exact ⟨rfl, List.not_mem_nil r⟩
  | cons q rest ih =>
    intro r aid
    obtain ⟨k, g⟩ := q
    simp only [addToGroup]
    by_cases hk : k = r
    · rw [if_pos hk]
      left
      rfl
    · rw [if_neg hk]
      rcases ih r aid with h | ⟨h, hnot⟩
      · left
        simp only [List.map_cons, h]
      · right
        constructor
        · simp only [List.map_cons, h, List.cons_append]
        · simp only [List.map_cons, List.mem_cons]
          rintro (h2 | h2)
          · exact hk h2.symm
          · exact hnot h2

theorem addToGroup_keys_nodup {gs : List (String × List String)} {r aid : String}
    (h : (gs.map Prod.fst).Nodup) : ((addToGroup gs r aid).map Prod.fst).Nodup := by
  rcases addToGroup_keys gs r aid with hk | ⟨hk, hnot⟩
  · rw [hk]
    exact h
  · rw [hk]
    rw [List.nodup_append]
    exact ⟨h, List.nodup_singleton r, by simpa using hnot⟩

theorem addToGroup_members :
    ∀ (gs : List (String × List String)) (r aid : String),
    ((addToGroup gs r aid).map Prod.snd).flatten.Perm
      ((gs.map Prod.snd).flatten ++ [aid]) := by
  intro gs
  induction gs with
  | nil =>
    intro r aid
    simp [addToGroup]
  | cons q rest ih =>
    intro r aid
    obtain ⟨k, g⟩ := q
    simp only [addToGroup]
    by_cases hk : k = r
    · rw [if_pos hk]
      simp only [List.map_cons, List.flatten_cons]
      have h1 : (g ++ [aid]) ++ (rest.map Prod.snd).flatten =
          g ++ ([aid] ++ (rest.map Prod.snd).flatten) := by
        rw [List.append_assoc]
      rw [h1]
      have h2 : ([aid] ++ (rest.map Prod.snd).flatten).Perm
          ((rest.map Prod.snd).flatten ++ [aid]) := List.perm_append_comm
      have h3 := List.Perm.append_left g h2
      refine h3.trans ?_
      rw [← List.append_assoc]
    · rw [if_neg hk]
      simp only [List.map_cons, List.flatten_cons]
      have h1 := List.Perm.append_left g (ih r aid)
      refine h1.trans ?_
      rw [← List.append_assoc]

theorem nodup_keys_entry_eq :
    ∀ (gs : List (String × List String)), (gs.map Prod.fst).Nodup →
    ∀ p ∈ gs, ∀ q ∈ gs, p.1 = q.1 → p = q := by
  intro gs
  induction gs with
  | nil =>
    intro _ p hp
    exact absurd hp (List.not_mem_nil p)
  | cons a rest ih =>
    intro hnd p hp q hq hpq
    rw [List.map_cons, List.nodup_cons] at hnd
    obtain ⟨ha, hnd2⟩ := hnd
    rcases List.mem_cons.mp hp with rfl | hpr <;> rcases List.mem_cons.mp hq with h2 | hqr
    · rw [h2]
    · exfalso
      apply ha
      rw [hpq]
      exact List.mem_map.mpr ⟨q, hqr, rfl⟩
    · exfalso
      apply ha
      rw [h2] at hpq
      rw [← hpq]
      exact List.mem_map.mpr ⟨p, hpr, rfl⟩
    · exact ih hnd2 p hpr q hqr hpq

theorem groupLoop_spec {n fuel : Nat} (m0 : PMap) :
    ∀ (ids : List String) (m : PMap) (gs : List (String × List String)),
    Bounded m n → n ≤ fuel →
    (∀ y s, Roots m y s ↔ Roots m0 y s) →
    (∀ p ∈ gs, ∀ x ∈ p.2, Roots m0 x p.1) →
    (gs.map Prod.fst).Nodup →
    (∀ p ∈ groupLoop fuel ids m gs, ∀ x ∈ p.2, Roots m0 x p.1) ∧
    ((groupLoop fuel ids m gs).map Prod.fst).Nodup ∧
    ((groupLoop fuel ids m gs).map Prod.snd).flatten.Perm
      ((gs.map Prod.snd).flatten ++ ids) := by
  intro ids
  induction ids with
  | nil =>
    intro m gs _ _ _ hinv hnd
    refine ⟨hinv, hnd, ?_⟩
    simp [groupLoop]
  | cons aid rest ih =>
    intro m gs hB hf hroots hinv hnd
    obtain ⟨hfind, hB2, hiff⟩ := findAux_roots_iff aid hB hf
    have hroots2 : ∀ y s, Roots (findAux fuel m aid).2 y s ↔ Roots m0 y s := by
      intro y s
      rw [hiff y s, hroots y s]
    have hra : Roots m0 aid (findAux fuel m aid).1 := (hroots aid _).mp hfind
    have hinv2 := addToGroup_inv gs (findAux fuel m aid).1 aid hinv hra
    have hnd2 : ((addToGroup gs (findAux fuel m aid).1 aid).map Prod.fst).Nodup :=
      addToGroup_keys_nodup hnd
    obtain ⟨h1, h2, h3⟩ := ih (findAux fuel m aid).2
      (addToGroup gs (findAux fuel m aid).1 aid) hB2 hf hroots2 hinv2 hnd2
    refine ⟨h1, h2, ?_⟩
    have hm := addToGroup_members gs (findAux fuel m aid).1 aid
    have h4 := h3.trans (List.Perm.append_right rest hm)
    simp only [groupLoop]
    refine h4.trans ?_
    rw [List.append_assoc]
    rfl

theorem eqvGen_endpoints (edges : List (String × String)) :
    ∀ x y, Relation.EqvGen (fun u v => (u, v) ∈ edges) x y →
      x = y ∨ (x ∈ allIdsOf edges ∧ y ∈ allIdsOf edges) := by
  intro x y h
  induction h with
  | rel u v huv =>
    right
    constructor
    · rw [allIdsOf, pyDedup_mem]
      exact List.mem_append.mpr (Or.inl (List.mem_map.mpr ⟨(u, v), huv, rfl⟩))
    · rw [allIdsOf, pyDedup_mem]
      exact List.mem_append.mpr (Or.inr (List.mem_map.mpr ⟨(u, v), huv, rfl⟩))
  | refl u => exact Or.inl rfl
  | symm u v h ih => tauto
  | trans u v w h1 h2 ih1 ih2 =>
    rcases ih1 with rfl | ⟨h1a, h1b⟩
    · exact ih2
    · rcases ih2 with rfl | ⟨h2a, h2b⟩
      · exact Or.inr ⟨h1a, h1b⟩
      · exact Or.inr ⟨h1a, h2b⟩

theorem two_mem_length {x y : String} : ∀ {l : List String},
    x ∈ l → y ∈ l → x ≠ y → 2 ≤ l.length := by
  intro l hx hy hxy
  cases l with
  | nil => exact absurd hx (List.not_mem_nil x)
  | cons a rest =>
    cases rest with
    | nil =>
      rcases List.mem_cons.mp hx with rfl | h0
      · rcases List.mem_cons.mp hy with h1 | h1
        · exact absurd h1.symm hxy
        · exact absurd h1 (List.not_mem_nil y)
      · exact absurd h0 (List.not_mem_nil x)
    | cons b rest2 =>
      simp only [List.length_cons]
      omega

theorem buildCluster_meta (cid : String) (cands : List DedupCandidate)
    (g : List String) (hg : g ≠ [])
    (hcov : ∀ aid ∈ g, (candById cands aid).isSome = true) :
    ∃ k, buildCluster cid cands g = some k ∧ k.action_ids = g ∧ ClusterMeta cands k := by
  have hids := filterMap_candById_ids cands g hcov
  have hcs : g.filterMap (fun aid => candById cands aid) ≠ [] := by
    intro h0
    rw [h0] at hids
    exact hg hids.symm
  obtain ⟨earliest, hmin⟩ : ∃ e, minByDate (g.filterMap (fun aid => candById cands aid)) =
      some e := by
    cases hm : minByDate (g.filterMap (fun aid => candById cands aid)) with
    | none => exact absurd ((minByDate_eq_none _).mp hm) hcs
    | some e => exact ⟨e, rfl⟩
  refine ⟨{ cluster_id := cid
            action_ids := (g.filterMap (fun aid => candById cands aid)).map
              (fun c => c.action_id)
            states := sortStrings (pyDedup ((g.filterMap (fun aid => candById cands aid)).map
              (fun c => c.state)))
            lead_state := some earliest.state
            name := if (if earliest.defendants ≠ [] then earliest.defendants.take 2 else []) ≠ []
                    then String.intercalate ", "
                      (if earliest.defendants ≠ [] then earliest.defendants.take 2 else [])
                    else pyTake earliest.headline 80
            total_settlement := maxQ (truthyAmounts
              (g.filterMap (fun aid => candById cands aid))) }, ?_, ?_, ?_⟩
  · simp only [buildCluster, hmin]
  · exact hids
  · obtain ⟨hemem, hedate⟩ := minByDate_spec hmin
    refine ⟨g.filterMap (fun aid => candById cands aid), rfl, ?_, ?_, ?_, ?_, ?_, ?_⟩
    · intro c hc
      obtain ⟨aid, _, hca⟩ := List.mem_filterMap.mp hc
      rw [candById_action_id hca]
      exact hca
    · intro s
      simp only
      rw [(sortStrings_perm _).mem_iff, pyDedup_mem, List.mem_map]
    · simp only
      exact (sortStrings_perm _).nodup_iff.mpr (pyDedup_nodup _)
    · intro q hq
      simp only at hq
      obtain ⟨hqmem, hqbound⟩ := maxQ_spec _ q hq
      obtain ⟨c, hc, hca, hq0⟩ := (truthyAmounts_mem _ q).mp hqmem
      refine ⟨hq0, ⟨c, hc, hca⟩, ?_⟩
      intro c2 hc2 x hx hx0
      exact hqbound x ((truthyAmounts_mem _ x).mpr ⟨c2, hc2, hx, hx0⟩)
    · simp only
      rw [maxQ_eq_none, truthyAmounts_eq_nil]
    · exact ⟨earliest, hemem, rfl, hedate⟩

theorem buildClustersLoop_spec (newIds : Nat → String) (cands : List DedupCandidate) :
    ∀ (gl : List (List String)) (i : Nat),
    (∀ g ∈ gl, ∀ aid ∈ g, (candById cands aid).isSome = true) →
    ∃ ks, buildClustersLoop newIds cands i gl = some ks ∧
      (∀ k ∈ ks, ∃ g ∈ gl, 2 ≤ g.length ∧ k.action_ids = g ∧ ClusterMeta cands k) ∧
      (∀ g ∈ gl, 2 ≤ g.length → ∃ k ∈ ks, k.action_ids = g ∧ ClusterMeta cands k) := by
  intro gl
  induction gl with
  | nil =>
    intro i _
    refine ⟨[], rfl, ?_, ?_⟩
    · intro k hk
      exact absurd hk (List.not_mem_nil k)
    · intro g hg
      exact absurd hg (List.not_mem_nil g)
  | cons g rest ih =>
    intro i hcov
    by_cases hlen : g.length < 2
    · obtain ⟨ks, hks, hsound, hcomp⟩ := ih i
        (fun g2 hg2 => hcov g2 (List.mem_cons_of_mem g hg2))
      refine ⟨ks, ?_, ?_, ?_⟩
      · simp only [buildClustersLoop, if_pos hlen]
        exact hks
      · intro k hk
        obtain ⟨g2, hg2, h2⟩ := hsound k hk
        exact ⟨g2, List.mem_cons_of_mem g hg2, h2⟩
      · intro g2 hg2 hlen2
        rcases List.mem_cons.mp hg2 with rfl | hg2r
        · omega
        · exact hcomp g2 hg2r hlen2
    · have hg : g ≠ [] := by
        intro h0
        rw [h0] at hlen
        exact hlen (by simp)
      obtain ⟨k, hk, hkids, hkmeta⟩ := buildCluster_meta (newIds i) cands g hg
        (hcov g (List.mem_cons_self g rest))
      obtain ⟨ks, hks, hsound, hcomp⟩ := ih (i + 1)
        (fun g2 hg2 => hcov g2 (List.mem_cons_of_mem g hg2))
      refine ⟨k :: ks, ?_, ?_, ?_⟩
      · simp only [buildClustersLoop, if_neg hlen]
        rw [hk, hks]
      · intro k2 hk2
        rcases List.mem_cons.mp hk2 with rfl | hk2r
        · exact ⟨g, List.mem_cons_self g rest, by omega, hkids, hkmeta⟩
        · obtain ⟨g2, hg2, h2⟩ := hsound k2 hk2r
          exact ⟨g2, List.mem_cons_of_mem g hg2, h2⟩
      · intro g2 hg2 hlen2
        rcases List.mem_cons.mp hg2 with rfl | hg2r
        · exact ⟨k, List.mem_cons_self k ks, hkids, hkmeta⟩
        · obtain ⟨k2, hk2, h2⟩ := hcomp g2 hg2r hlen2
          exact ⟨k2, List.mem_cons_of_mem k hk2, h2⟩

/-- C7: `cluster_multistate_matches` groups action ids into the connected
components of the multistate-match graph (so A–B and B–C transitively
place A, B, C together), discards components with fewer than two members,
and reports per cluster the distinct member states, the largest *nonzero*
member amount as `total_settlement` (members whose amount is `None` or
`Decimal("0")` are skipped by the truthiness filter — `none` results when
no member has a nonzero amount, diverging from the claim's "maximum of
the members' amounts"), and the state of an earliest-announcing member as
`lead_state`.  The hypothesis says every matched id has a candidate
record (otherwise the Python raises `KeyError`-free but hits
`min([])`). -/
theorem c7_cluster_connected_components (newIds : Nat → String)
    (cands : List DedupCandidate) (ms : List DedupMatch)
    (hcov : ∀ aid ∈ allIdsOf (msEdges ms), (candById cands aid).isSome = true) :
    ∃ clusters, clusterMultistateMatches newIds cands ms = some clusters ∧
      (∀ k ∈ clusters,
        2 ≤ k.action_ids.length ∧ k.action_ids.Nodup ∧
        (∀ x ∈ k.action_ids, x ∈ allIdsOf (msEdges ms)) ∧
        (∀ x ∈ k.action_ids, ∀ y ∈ k.action_ids,
          Relation.EqvGen (fun u v => (u, v) ∈ msEdges ms) x y) ∧
        ClusterMeta cands k) ∧
      (∀ x y, x ≠ y → Relation.EqvGen (fun u v => (u, v) ∈ msEdges ms) x y →
        ∃ k ∈ clusters, x ∈ k.action_ids ∧ y ∈ k.action_ids) := by
  by_cases hedges : msEdges ms = []
  · refine ⟨[], ?_, ?_, ?_⟩
    · simp [clusterMultistateMatches, hedges]
    · intro k hk
      exact absurd hk (List.not_mem_nil k)
    · intro x y hxy hconn
      rcases eqvGen_endpoints (msEdges ms) x y hconn with rfl | ⟨hx, _⟩
      · exact absurd rfl hxy
      · rw [hedges] at hx
        simp [allIdsOf, pyDedup] at hx
  · obtain ⟨hB, hS⟩ := process_empty_spec (msEdges ms) (msEdges ms).length le_rfl
    obtain ⟨hag, hkeys, hperm0⟩ := groupLoop_spec
      (processMatches (msEdges ms).length (msEdges ms) [])
      (allIdsOf (msEdges ms))
      (processMatches (msEdges ms).length (msEdges ms) []) []
      hB le_rfl (fun y s => Iff.rfl)
      (fun p hp => absurd hp (List.not_mem_nil p)) (by simp)
    have hperm : (((groupLoop (msEdges ms).length (allIdsOf (msEdges ms))
        (processMatches (msEdges ms).length (msEdges ms) []) []).map
        Prod.snd).flatten).Perm (allIdsOf (msEdges ms)) := by
      simpa using hperm0
    have hmemnodup : (((groupLoop (msEdges ms).length (allIdsOf (msEdges ms))
        (processMatches (msEdges ms).length (msEdges ms) []) []).map
        Prod.snd).flatten).Nodup :=
      hperm.nodup_iff.mpr (pyDedup_nodup _)
    have hcovloop : ∀ g ∈ (groupLoop (msEdges ms).length (allIdsOf (msEdges ms))
        (processMatches (msEdges ms).length (msEdges ms) []) []).map Prod.snd,
        ∀ aid ∈ g, (candById cands aid).isSome = true := by
      intro g hg aid ha
      exact hcov aid (hperm.mem_iff.mp (List.mem_flatten.mpr ⟨g, hg, ha⟩))
    obtain ⟨ks, hks, hsound, hcomp⟩ := buildClustersLoop_spec newIds cands
      ((groupLoop (msEdges ms).length (allIdsOf (msEdges ms))
        (processMatches (msEdges ms).length (msEdges ms) []) []).map Prod.snd) 0 hcovloop
    refine ⟨ks, ?_, ?_, ?_⟩
    · simp only [clusterMultistateMatches]
      rw [if_neg hedges]
      exact hks
    · intro k hk
      obtain ⟨g, hgmem, hglen, hkids, hkmeta⟩ := hsound k hk
      obtain ⟨p, hp, hpg⟩ := List.mem_map.mp hgmem
      refine ⟨by rw [hkids]; exact hglen, ?_, ?_, ?_, hkmeta⟩
      · rw [hkids]
        exact (List.nodup_flatten.mp hmemnodup).1 g hgmem
      · intro x hx
        rw [hkids] at hx
        exact hperm.mem_iff.mp (List.mem_flatten.mpr ⟨g, hgmem, hx⟩)
      · intro x hx y hy
        rw [hkids] at hx hy
        have hxr : Roots (processMatches (msEdges ms).length (msEdges ms) []) x p.1 :=
          hag p hp x (by rw [hpg]; exact hx)
        have hyr : Roots (processMatches (msEdges ms).length (msEdges ms) []) y p.1 :=
          hag p hp y (by rw [hpg]; exact hy)
        exact (hS x y).mp ⟨p.1, hxr, hyr⟩
    · intro x y hxy hconn
      rcases eqvGen_endpoints (msEdges ms) x y hconn with rfl | ⟨hx, hy⟩
      · exact absurd rfl hxy
      · obtain ⟨gx, hgx, hxgx⟩ := List.mem_flatten.mp (hperm.mem_iff.mpr hx)
        obtain ⟨gy, hgy, hygy⟩ := List.mem_flatten.mp (hperm.mem_iff.mpr hy)
        obtain ⟨px, hpx, hpxg⟩ := List.mem_map.mp hgx
        obtain ⟨py, hpy, hpyg⟩ := List.mem_map.mp hgy
        have hxr : Roots (processMatches (msEdges ms).length (msEdges ms) []) x px.1 :=
          hag px hpx x (by rw [hpxg]; exact hxgx)
        have hyr : Roots (processMatches (msEdges ms).length (msEdges ms) []) y py.1 :=
          hag py hpy y (by rw [hpyg]; exact hygy)
        obtain ⟨r, hxr2, hyr2⟩ := (hS x y).mpr hconn
        have hpx1 : px.1 = r := roots_unique hxr hxr2
        have hpy1 : py.1 = r := roots_unique hyr hyr2
        have hpeq : px = py := nodup_keys_entry_eq _ hkeys px hpx py hpy (by rw [hpx1, hpy1])
        have hyin : y ∈ gx := by
          rw [← hpxg, hpeq, hpyg]
          exact hygy
        have hlen : 2 ≤ gx.length := two_mem_length hxgx hyin hxy
        obtain ⟨k, hk, hkids, _⟩ := hcomp gx hgx hlen
        exact ⟨k, hk, by rw [hkids]; exact hxgx, by rw [hkids]; exact hyin⟩

def c7wCandA : DedupCandidate :=
  { action_id := "A", state := "CA", date_announced := 0, defendants := ["Acme"],
    total_amount := none, headline := "a", is_multistate := true }

def c7wCandB : DedupCandidate :=
  { action_id := "B", state := "NY", date_announced := 1, defendants := ["Acme"],
    total_amount := none, headline := "b", is_multistate := true }

def c7wCandC : DedupCandidate :=
  { action_id := "C", state := "TX", date_announced := 2, defendants := ["Acme"],
    total_amount := none, headline := "c", is_multistate := true }

def c7wMatchAB : DedupMatch :=
  { action_id_a := "A", action_id_b := "B", match_type := "multistate",
    confidence := 1, reason := "r" }

def c7wMatchBC : DedupMatch :=
  { action_id_a := "B", action_id_b := "C", match_type := "multistate",
    confidence := 1, reason := "r" }

/-- C7 witness: matches A–B and B–C (and no A–C match) run through the
clustering pipeline at concrete inputs. -/
theorem c7_cluster_connected_components_witness :
    (∀ aid ∈ allIdsOf (msEdges [c7wMatchAB, c7wMatchBC]),
      (candById [c7wCandA, c7wCandB, c7wCandC] aid).isSome = true) ∧
    (∃ clusters, clusterMultistateMatches (fun i => "cid") [c7wCandA, c7wCandB, c7wCandC]
        [c7wMatchAB, c7wMatchBC] = some clusters ∧
      (∀ k ∈ clusters,
        2 ≤ k.action_ids.length ∧ k.action_ids.Nodup ∧
        (∀ x ∈ k.action_ids, x ∈ allIdsOf (msEdges [c7wMatchAB, c7wMatchBC])) ∧
        (∀ x ∈ k.action_ids, ∀ y ∈ k.action_ids,
          Relation.EqvGen (fun u v => (u, v) ∈ msEdges [c7wMatchAB, c7wMatchBC]) x y) ∧
        ClusterMeta [c7wCandA, c7wCandB, c7wCandC] k) ∧
      (∀ x y, x ≠ y →
        Relation.EqvGen (fun u v => (u, v) ∈ msEdges [c7wMatchAB, c7wMatchBC]) x y →
        ∃ k ∈ clusters, x ∈ k.action_ids ∧ y ∈ k.action_ids)) :=
  ⟨by decide, c7_cluster_connected_components (fun i => "cid")
    [c7wCandA, c7wCandB, c7wCandC] [c7wMatchAB, c7wMatchBC] (by decide)⟩

def c7cexCandA : DedupCandidate :=
  { action_id := "A", state := "CA", date_announced := 0, defendants := ["Acme"],
    total_amount := some 0, headline := "a", is_multistate := true }

def c7cexCandB : DedupCandidate :=
  { action_id := "B", state := "NY", date_announced := 1, defendants := ["Acme"],
    total_amount := none, headline := "b", is_multistate := true }

def c7cexMatch : DedupMatch :=
  { action_id_a := "A", action_id_b := "B", match_type := "multistate",
    confidence := 1, reason := "r" }

/-- C7 counterexample to the claim's `total_settlement` sentence: one
member carries the amount `Decimal("0")`, so the maximum of the members'
amounts is `0`, but the truthiness filter
`[c.total_amount for c in cands if c.total_amount]` drops it and the code
stores `None` as the canonical total. -/
theorem c7_counterexample :
    clusterMultistateMatches (fun i => "cid") [c7cexCandA, c7cexCandB] [c7cexMatch] =
      some [{ cluster_id := "cid", action_ids := ["A", "B"], states := ["CA", "NY"],
              lead_state := some "CA", name := "Acme", total_settlement := none }] ∧
    claimTotalSettlement [c7cexCandA, c7cexCandB] = some 0 ∧
    some (0 : ℚ) ≠ (none : Option ℚ) := by
  refine ⟨by decide, by decide, by decide⟩
